import Mathlib

/-!
A verification development for `dedupe.py` (mmocnak/dedupe): a shallow
embedding of the duplicate detector (`find_dupes`), the link-replacement
protocol (`link` / `hardlink` / `templink`) and the per-pair action loop
(`dedupe`), together with theorems settling the specification claims.

Modelling conventions:
* Directory traversal (`os.walk` / `os.listdir`) and `os.stat` are external
  collaborators; a detection pass is driven by a list of `Candidate` records,
  one per path the walker yields, carrying the `os.path.isfile` answer and
  the stat fields (`st_size`, `st_dev`, `st_ino`) the source reads.
* `get_file_hash` performs file I/O; it is modelled as an oracle
  `hashFn : String -> Option Nat` from a path to the digest of the bytes
  read at hashing time (`none` models an `IOError`/`OSError` raised while
  opening or reading the file; digests are abstract numbers standing for
  the hex digest strings of the selected algorithm).
* Python `dict`s are embedded as association lists in insertion order,
  looked up by first match and updated in place (`dictSet`).
* Machine integers do not overflow here (Python ints are unbounded), so
  sizes, devices, inodes and digests are `Nat`; the `--min-size` option is
  an `Int` because `optparse` accepts any integer.
-/

set_option maxHeartbeats 1000000

/-- FileInfo namedtuple of dedupe.py: `FileInfo = namedtuple("FileInfo", ["name", "dev", "inode"])`. -/
structure FileInfo where
  name : String
  dev : Nat
  inode : Nat
deriving DecidableEq, Repr

/-- One path yielded by the walker, together with the answers the
filesystem gives for it: `os.path.isfile(fullpath)` and the fields of
`os.stat(fullpath)` that `find_dupes` reads (lines 116-126). -/
structure Candidate where
  name : String
  is_file : Bool
  st_size : Nat
  st_dev : Nat
  st_ino : Nat
deriving DecidableEq, Repr

/-- The options object produced by the option parsing in dedupe.py
(fields `recurse`, `min_size`, `action`, `algorithm`). -/
structure Options where
  recurse : Bool
  min_size : Int
  action : String
  algorithm : String
deriving DecidableEq, Repr

/-- The defaults declared by the option parser in dedupe.py (lines 54-87):
`recurse` defaults to `True`, `--min-size` has `default=1`, `--action`
has `default=ACTION_DEFAULT` (= "print"), `--algorithm` defaults to
"sha256". -/
def defaultOptions : Options :=
  { recurse := true, min_size := 1, action := "print", algorithm := "sha256" }

/-- A value of `device_size_info_dict[file_size]`: either a bare `FileInfo`
(only one file of this size seen so far, nothing hashed) or the
`hash -> FileInfo` dict built once a size collision forced hashing.  The
source distinguishes the two with `isinstance(info_or_dict, dict)`
(line 131). -/
inductive BucketVal where
  | info (fi : FileInfo)
  | dict (m : List (Nat × FileInfo))
deriving DecidableEq, Repr

/-- First-match association-list lookup: the semantics of `d[k]` /
`k in d` for a Python dict represented in insertion order. -/
def alookup {κ α : Type} [DecidableEq κ] (k : κ) : List (κ × α) → Option α
  | [] => none
  | (k2, v) :: rest => if k2 = k then some v else alookup k rest

/-- In-place update `d[k] = v` of a Python dict in insertion order:
replaces the value at an existing key, else appends the new key. -/
def dictSet {κ α : Type} [DecidableEq κ] (l : List (κ × α)) (k : κ) (v : α) : List (κ × α) :=
  match l with
  | [] => [(k, v)]
  | (k2, v2) :: rest => if k2 = k then (k, v) :: rest else (k2, v2) :: dictSet rest k v

/-- The `FileInfo` values held by a bucket (for the dict variant, its
`.values()`). -/
def storedInfos : BucketVal → List FileInfo
  | .info f => [f]
  | .dict m => m.map Prod.snd

/-- The `FileInfo` built for the current candidate at lines 123-127:
`FileInfo(fullpath, this_device, stat.st_ino)`. -/
def mkInfo (c : Candidate) : FileInfo :=
  { name := c.name, dev := c.st_dev, inode := c.st_ino }

/-- State of a detection pass.  `buckets` is `device_size_info_dict` of
line 91 — despite its name the source keys it by `file_size` alone
(lines 128-130 alias it and index it with `file_size` only; `this_device`
is stored inside the `FileInfo` values but never used as a key).
`emitted` collects the `(original, duplicate, hash)` triples yielded so
far.  `hashed` and `processed` are ghost instrumentation: `hashed`
records `(st_dev, st_ino)` for every completed `get_file_hash` call, and
`processed` records every candidate consumed from the walker. -/
structure DetectState where
  buckets : List (Nat × BucketVal)
  emitted : List (FileInfo × FileInfo × Nat)
  hashed : List (Nat × Nat)
  processed : List Candidate
deriving DecidableEq, Repr

/-- The empty state at the start of a detection pass. -/
def initState : DetectState := { buckets := [], emitted := [], hashed := [], processed := [] }

/-- Result of processing one candidate: either the next state, or the
state at the moment an uncaught I/O exception escaped `get_file_hash`
(the source has no try/except around hashing, so the exception
propagates out of the generator). -/
inductive StepResult where
  | ok (st : DetectState)
  | ioError (st : DetectState)
deriving DecidableEq, Repr

/-- The state carried by a `StepResult`. -/
def StepResult.state : StepResult → DetectState
  | .ok st => st
  | .ioError st => st

/-- Processing of one candidate by `find_dupes` (dedupe.py lines 114-179),
translated branch by branch:
* not a regular file, or `file_size < options.min_size`: `continue`;
* no bucket for this size: store the bare `FileInfo` (line 179);
* bucket is a dict (lines 131-154): skip if any stored value shares the
  inode; otherwise hash the candidate — on success, emit if the hash is a
  key of the dict, else insert the candidate under its hash;
* bucket is a bare `FileInfo` (lines 156-175): skip if it shares the
  inode; otherwise hash the candidate, then hash the existing file,
  replace the bucket with `{existing_hash: existing}`, and emit the pair
  when the hashes agree or insert the candidate when they differ.
A failed hash (`hashFn _ = none`) reproduces the uncaught `IOError`:
the state (buckets and emitted untouched) is returned in `.ioError`. -/
def find_dupes_step (opts : Options) (hashFn : String → Option Nat)
    (st : DetectState) (c : Candidate) : StepResult :=
  if c.is_file = false then .ok { st with processed := st.processed ++ [c] }
  else if (c.st_size : Int) < opts.min_size then .ok { st with processed := st.processed ++ [c] }
  else
    match alookup c.st_size st.buckets with
    | some (BucketVal.dict m) =>
      if m.any (fun p => p.2.inode == c.st_ino) then
        .ok { st with processed := st.processed ++ [c] }
      else
        match hashFn c.name with
        | none => .ioError { st with processed := st.processed ++ [c] }
        | some this_hash =>
          match alookup this_hash m with
          | some orig =>
            .ok { st with processed := st.processed ++ [c],
                          hashed := st.hashed ++ [(c.st_dev, c.st_ino)],
                          emitted := st.emitted ++ [(orig, mkInfo c, this_hash)] }
          | none =>
            .ok { st with processed := st.processed ++ [c],
                          hashed := st.hashed ++ [(c.st_dev, c.st_ino)],
                          buckets := dictSet st.buckets c.st_size
                            (BucketVal.dict (m ++ [(this_hash, mkInfo c)])) }
    | some (BucketVal.info file_info) =>
      if file_info.inode = c.st_ino then .ok { st with processed := st.processed ++ [c] }
      else
        match hashFn c.name with
        | none => .ioError { st with processed := st.processed ++ [c] }
        | some this_hash =>
          match hashFn file_info.name with
          | none => .ioError { st with processed := st.processed ++ [c],
                                       hashed := st.hashed ++ [(c.st_dev, c.st_ino)] }
          | some existing_file_hash =>
            if existing_file_hash = this_hash then
              .ok { st with processed := st.processed ++ [c],
                            hashed := st.hashed ++ [(c.st_dev, c.st_ino), (file_info.dev, file_info.inode)],
                            buckets := dictSet st.buckets c.st_size
                              (BucketVal.dict [(existing_file_hash, file_info)]),
                            emitted := st.emitted ++ [(file_info, mkInfo c, this_hash)] }
            else
              .ok { st with processed := st.processed ++ [c],
                            hashed := st.hashed ++ [(c.st_dev, c.st_ino), (file_info.dev, file_info.inode)],
                            buckets := dictSet st.buckets c.st_size
                              (BucketVal.dict [(existing_file_hash, file_info), (this_hash, mkInfo c)]) }
    | none =>
      .ok { st with processed := st.processed ++ [c],
                    buckets := dictSet st.buckets c.st_size (BucketVal.info (mkInfo c)) }

/-- A whole detection pass over the candidate sequence.  The boolean is
true when the pass was aborted by an uncaught hashing exception: nothing
in `find_dupes` or its callers catches it, so the remaining candidates
are never consumed. -/
def find_dupes (opts : Options) (hashFn : String → Option Nat)
    (st : DetectState) : List Candidate → DetectState × Bool
  | [] => (st, false)
  | c :: cs =>
    match find_dupes_step opts hashFn st c with
    | .ok st2 => find_dupes opts hashFn st2 cs
    | .ioError st2 => (st2, true)

/-- Number of completed `get_file_hash` calls made for device `d`,
inode `i` during the pass. -/
def countHash (st : DetectState) (d i : Nat) : Nat :=
  st.hashed.count (d, i)

/-- Number of emitted triples whose duplicate component carries device
`d` and inode `i`. -/
def countDupEmit (st : DetectState) (d i : Nat) : Nat :=
  (st.emitted.filter (fun t => t.2.1.dev == d && t.2.1.inode == i)).length

/-- Whether a bucket currently stores a `FileInfo` with device `d` and
inode `i`. -/
def storedIn (b : BucketVal) (d i : Nat) : Bool :=
  (storedInfos b).any (fun f => f.dev == d && f.inode == i)

/-- Whether any bucket of the pass stores a `FileInfo` with device `d`
and inode `i`. -/
def stored (st : DetectState) (d i : Nat) : Bool :=
  st.buckets.any (fun p => storedIn p.2 d i)

/-- Errors the modelled filesystem primitives can raise (`OSError`
subcases the source distinguishes only by where they arise). -/
inductive FsErr where
  | eexist
  | noent
  | other
deriving DecidableEq, Repr

/-- A directory as the link protocol sees it: an ordered association of
names to inode identities.  Two names mapped to the same number are hard
links to the same inode. -/
abbrev FS := List (String × Nat)

/-- Remove a directory entry (no-op on the rest of the entries). -/
def removeFS (fs : FS) (p : String) : FS :=
  fs.filter (fun e => e.1 != p)

/-- Install `p -> v`, replacing any existing entry for `p`. -/
def setFS (fs : FS) (p : String) (v : Nat) : FS :=
  removeFS fs p ++ [(p, v)]

/-- `os.link(src, dst)`: fails with `EEXIST` when `dst` already exists,
with `ENOENT` when `src` is missing, else creates `dst` as a second name
for `src`'s inode. -/
def os_link (fs : FS) (src dst : String) : Except FsErr FS :=
  if (alookup dst fs).isSome then .error .eexist
  else
    match alookup src fs with
    | none => .error .noent
    | some v => .ok (fs ++ [(dst, v)])

/-- `os.rename(src, dst)`: atomically replaces `dst` by `src`'s entry.
`renameOk = false` injects a failure (e.g. `EXDEV` or a permission
error), which the filesystem abstraction itself cannot express. -/
def os_rename (renameOk : Bool) (fs : FS) (src dst : String) : Except FsErr FS :=
  if renameOk = false then .error .other
  else
    match alookup src fs with
    | none => .error .noent
    | some v => .ok (setFS (removeFS fs src) dst v)

/-- `os.unlink(p)`: removes the entry, `ENOENT` when absent. -/
def os_unlink (fs : FS) (p : String) : Except FsErr FS :=
  match alookup p fs with
  | none => .error .noent
  | some _ => .ok (removeFS fs p)

/-- `os.path.split` of posixpath for a relative or absolute path: split
at the last slash, stripping trailing slashes from the head unless the
head is all slashes. -/
def pySplit (p : String) : String × String :=
  let r := p.data.reverse
  let tl := (r.takeWhile (fun c => c != '/')).reverse
  let hd := (r.dropWhile (fun c => c != '/')).reverse
  let hd2 := if hd.isEmpty || hd.all (fun c => c == '/') then hd
             else (hd.reverse.dropWhile (fun c => c == '/')).reverse
  (String.mk hd2, String.mk tl)

/-- `os.path.join` of posixpath for two components. -/
def pyJoin (a b : String) : String :=
  if b.data.head? = some '/' then b
  else if a.data = [] || a.data.getLast? = some '/' then a ++ b
  else a ++ "/" ++ b

/-- The temporary link name computed at lines 223-224 of `link()`:
the content hash, joined to the duplicate's parent directory. -/
def tempNameOf (pathb hsh : String) : String :=
  pyJoin (pySplit pathb).1 hsh

/-- Outcome of one run of `link()`: the final filesystem, the list of
filesystem states observable at each point of the protocol (initial
state first), and the propagated exception, if any. -/
structure LinkResult where
  fs : FS
  trace : List FS
  err : Option FsErr
deriving DecidableEq, Repr

/-- Outcome of the cleanup `os.unlink(temp_name)` performed inside the
`except OSError` handler of `link` (lines 229-236): on success the
original rename error `e` is re-raised; if the unlink itself raises,
that exception replaces it. -/
def link_step3 (fs fs1 : FS) (e : FsErr) (r : Except FsErr FS) : LinkResult :=
  match r with
  | .ok fs2 => { fs := fs2, trace := [fs, fs1, fs2], err := some e }
  | .error e2 => { fs := fs1, trace := [fs, fs1], err := some e2 }

/-- Outcome of the atomic `os.rename(temp_name, pathb)` of `link`
(lines 226-236): on success the protocol is done; on failure the temp
entry is unlinked before the error propagates. -/
def link_step2 (fs fs1 : FS) (pathb hsh : String) (r : Except FsErr FS) : LinkResult :=
  match r with
  | .ok fs2 => { fs := fs2, trace := [fs, fs1, fs2], err := none }
  | .error e => link_step3 fs fs1 e (os_unlink fs1 (tempNameOf pathb hsh))

/-- Outcome of `linkfn(patha, temp_name)` in `link` (line 225): any
failure propagates immediately (there is no retry loop in `link`);
on success the rename is attempted. -/
def link_step1 (fs : FS) (pathb hsh : String) (renameOk : Bool)
    (r : Except FsErr FS) : LinkResult :=
  match r with
  | .error e => { fs := fs, trace := [fs], err := some e }
  | .ok fs1 => link_step2 fs fs1 pathb hsh (os_rename renameOk fs1 (tempNameOf pathb hsh) pathb)

/-- `link(linkfn, patha, pathb, hash)` (dedupe.py lines 217-236):
create the link at the hash-derived temp name, then atomically rename it
over `pathb`; when the rename raises, unlink the temp name and re-raise.
The `trace` field records every observable filesystem state, the initial
one first. -/
def link (linkfn : FS → String → String → Except FsErr FS) (renameOk : Bool)
    (fs : FS) (patha pathb hsh : String) : LinkResult :=
  link_step1 fs pathb hsh renameOk (linkfn fs patha (tempNameOf pathb hsh))

/-- `hardlink(patha, pathb, hash) = link(os.link, ...)` (line 213). -/
def hardlink (renameOk : Bool) (fs : FS) (patha pathb hsh : String) : LinkResult :=
  link os_link renameOk fs patha pathb hsh

/-- `templink(source_path, dest_dir, name, prefix)` (dedupe.py lines
182-199): try `os.link` at `prefix + name + "_" + i` for i = 1, 2, ...
until a call does not raise; the source retries on every `OSError`, not
only `EEXIST`, and its `while True` loop has no bound, so the embedding
takes fuel.  No other function of the source ever calls `templink`. -/
def templink (fuel i : Nat) (fs : FS) (source_path dest_dir nm pfx : String) :
    Option (FS × String) :=
  match fuel with
  | 0 => none
  | fuel2 + 1 =>
    let dest_path := pyJoin dest_dir (pfx ++ nm ++ "_" ++ toString i)
    match os_link fs source_path dest_path with
    | .ok fs2 => some (fs2, dest_path)
    | .error _ => templink fuel2 (i + 1) fs source_path dest_dir nm pfx

/-- Exceptions distinguished by the per-pair handler of `dedupe`
(lines 239-251): `OSError` is caught, everything else escapes.  A call
that omits a required positional argument raises `TypeError` before the
callee's body runs. -/
inductive PyErr where
  | osError (e : FsErr)
  | typeError
deriving DecidableEq, Repr

/-- Observable output of the `dedupe` loop. -/
inductive DedupeEvent where
  | reported (a b : String)
  | deleteNotCoded
  | linkFailed (a b : String)
deriving DecidableEq, Repr

/-- The try-block body of `dedupe` for one emitted pair (lines 242-249).
The source calls `symlink(fileinfo_a.name, fileinfo_b.name)` and
`hardlink(fileinfo_a.name, fileinfo_b.name)` with two arguments, but
both functions require three (`patha, pathb, hash`), so in those modes
Python raises `TypeError` at the call site before any filesystem
operation happens; `"delete"` prints "delete not coded yet"; any other
action value logs the pair. -/
def dedupe_pair (opts : Options) (t : FileInfo × FileInfo × Nat) :
    Except PyErr (List DedupeEvent) :=
  if opts.action == "symlink" then .error .typeError
  else if opts.action == "hardlink" then .error .typeError
  else if opts.action == "delete" then .ok [.deleteNotCoded]
  else .ok [.reported t.1.name t.2.1.name]

/-- The per-pair loop of `dedupe` (lines 239-251) over the triples the
detector emits: `except OSError` logs the failure and moves to the next
pair; any other exception (in particular the `TypeError` of the
mis-aritied link calls) propagates and ends the run. -/
def dedupe (opts : Options) (events : List DedupeEvent) :
    List (FileInfo × FileInfo × Nat) → List DedupeEvent × Option PyErr
  | [] => (events, none)
  | t :: rest =>
    match dedupe_pair opts t with
    | .ok evs => dedupe opts (events ++ evs) rest
    | .error (.osError _) => dedupe opts (events ++ [.linkFailed t.1.name t.2.1.name]) rest
    | .error .typeError => (events, some .typeError)

/-- Hash oracle for runs in which every file has the same content. -/
def hashAll7 : String → Option Nat := fun _ => some 7

/-- Hash oracle for a run in which path "b" becomes unreadable before
hashing (its `get_file_hash` raises) while every other path hashes. -/
def hashBFails : String → Option Nat := fun s => if s == "b" then none else some 7

/-- Hash oracle for the spec's end-to-end scenario: paths "A" and "B"
hold content "hello" (digest written 100), path "C" holds "world"
(digest written 200). -/
def hashC6 : String → Option Nat := fun s => if s == "C" then some 200 else some 100

/-- Candidates for the cross-device scenario: identical content, equal
size, distinct devices and inodes. -/
def c1a : Candidate := { name := "a", is_file := true, st_size := 5, st_dev := 1, st_ino := 1 }

/-- Second cross-device candidate, on device 2. -/
def c1b : Candidate := { name := "b", is_file := true, st_size := 5, st_dev := 2, st_ino := 2 }

/-- Candidates for the aborted-pass scenario, all on one device. -/
def c3a : Candidate := { name := "a", is_file := true, st_size := 5, st_dev := 1, st_ino := 1 }

/-- The candidate whose hashing fails in the aborted-pass scenario. -/
def c3b : Candidate := { name := "b", is_file := true, st_size := 5, st_dev := 1, st_ino := 2 }

/-- A candidate after the failure point, never reached by the pass. -/
def c3c : Candidate := { name := "c", is_file := true, st_size := 5, st_dev := 1, st_ino := 3 }

/-- Double-hash scenario: first file, inode 1. -/
def c4p1 : Candidate := { name := "p1", is_file := true, st_size := 5, st_dev := 1, st_ino := 2 }

/-- Double-hash scenario: second file, inode 3, same content. -/
def c4p2 : Candidate := { name := "p2", is_file := true, st_size := 5, st_dev := 1, st_ino := 3 }

/-- Double-hash scenario: a second path to inode 3 (a pre-existing hard
link of p2), same content. -/
def c4p3 : Candidate := { name := "p3", is_file := true, st_size := 5, st_dev := 1, st_ino := 3 }

/-- Spec scenario file A: content "hello", size 5, inode 1. -/
def c6A : Candidate := { name := "A", is_file := true, st_size := 5, st_dev := 1, st_ino := 1 }

/-- Spec scenario file B: content "hello", size 5, inode 2. -/
def c6B : Candidate := { name := "B", is_file := true, st_size := 5, st_dev := 1, st_ino := 2 }

/-- Spec scenario file C: content "world", size 5, inode 3. -/
def c6C : Candidate := { name := "C", is_file := true, st_size := 5, st_dev := 1, st_ino := 3 }

/-- Two size-5 files used in the min-size scenario. -/
def c9Small : List Candidate :=
  [ { name := "x", is_file := true, st_size := 5, st_dev := 1, st_ino := 1 },
    { name := "y", is_file := true, st_size := 5, st_dev := 1, st_ino := 2 } ]

/-- An emitted pair handed to the action loop. -/
def tW1 : FileInfo × FileInfo × Nat := ({ name := "a", dev := 1, inode := 1 }, { name := "b", dev := 1, inode := 2 }, 7)

/-- A second emitted pair handed to the action loop. -/
def tW2 : FileInfo × FileInfo × Nat := ({ name := "a", dev := 1, inode := 1 }, { name := "c", dev := 1, inode := 3 }, 7)

/-- Directory for the link-protocol scenarios: `orig` and `d/b` exist,
plus (for the collision scenario) a stale file already at the temp name
`d/h`. -/
def fsColl : FS := [("orig", 1), ("d/b", 2), ("d/h", 3)]

/-- Directory for the rename-failure scenario: `a` (the original) and
`d/b` (the duplicate) exist, the temp name `d/h` is free. -/
def fsW8 : FS := [("a", 1), ("d/b", 2)]

/-- A bucket state holding a single unhashed file, for instantiating the
bucket-transition theorems. -/
def stInfoA : DetectState :=
  { buckets := [(5, BucketVal.info { name := "A", dev := 1, inode := 1 })],
    emitted := [], hashed := [],
    processed := [c6A] }

/-- A bucket state already in the hashed (dict) variant, for
instantiating the never-overwritten theorem. -/
def stDictA : DetectState :=
  { buckets := [(5, BucketVal.dict [(100, { name := "A", dev := 1, inode := 1 })])],
    emitted := [], hashed := [], processed := [] }

/-- Invariant tying hash-computation counts to the bucket map, relative
to a stat model `sz` assigning each `(device, inode)` its file size
(a fixed filesystem during the pass: two candidates for the same device
and inode report the same size).  `nodup`: bucket keys are distinct.
`sizes`: a stored `FileInfo` sits in the bucket of its own size.
`fresh`: the file held by a still-unhashed bucket has never been hashed.
`absent`: nothing was ever hashed towards a size with no bucket.
`bound1`/`bound2`: a `(device, inode)` not stored in any bucket has been
hashed at most once per time it was emitted as a duplicate, and in
general at most once more than that. -/
structure InvC4 (sz : Nat → Nat → Nat) (st : DetectState) : Prop where
  nodup : (st.buckets.map Prod.fst).Nodup
  sizes : ∀ p ∈ st.buckets, ∀ f ∈ storedInfos p.2, sz f.dev f.inode = p.1
  fresh : ∀ p ∈ st.buckets, ∀ e, p.2 = BucketVal.info e → countHash st e.dev e.inode = 0
  absent : ∀ d i, alookup (sz d i) st.buckets = none → countHash st d i = 0
  bound1 : ∀ d i, stored st d i = false → countHash st d i ≤ countDupEmit st d i
  bound2 : ∀ d i, countHash st d i ≤ countDupEmit st d i + 1

/-- Invariant behind the emitted-triple properties: every stored
`FileInfo` was built from an already-processed candidate of the bucket's
size, and every emitted triple pairs two distinct-inode files, carries
the duplicate's digest, and names an original processed strictly before
its duplicate, both of the same size. -/
structure InvC10 (hashFn : String → Option Nat) (st : DetectState) : Prop where
  storedFrom : ∀ p ∈ st.buckets, ∀ f ∈ storedInfos p.2,
    ∃ cf l1 l2, st.processed = l1 ++ cf :: l2 ∧ mkInfo cf = f ∧ cf.st_size = p.1
  emittedOK : ∀ t ∈ st.emitted,
    t.1.inode ≠ t.2.1.inode ∧ hashFn t.2.1.name = some t.2.2 ∧
    ∃ co cd l1 l2 l3, st.processed = l1 ++ co :: l2 ++ cd :: l3 ∧
      mkInfo co = t.1 ∧ mkInfo cd = t.2.1 ∧ co.st_size = cd.st_size

section AssocLemmas

variable {κ α : Type} [DecidableEq κ]

theorem alookup_some_mem {l : List (κ × α)} {k : κ} {v : α}
    (h : alookup k l = some v) : (k, v) ∈ l := by
  induction l with
  | nil => simp [alookup] at h
  | cons p rest ih =>
    obtain ⟨k2, v2⟩ := p
    by_cases hk : k2 = k
    · subst hk
      simp [alookup] at h
      simp [h]
    · simp [alookup, hk] at h
      exact List.mem_cons_of_mem _ (ih h)

theorem alookup_none_iff {l : List (κ × α)} {k : κ} :
    alookup k l = none ↔ k ∉ l.map Prod.fst := by
  induction l with
  | nil => simp [alookup]
  | cons p rest ih =>
    obtain ⟨k2, v2⟩ := p
    by_cases hk : k2 = k
    · subst hk; simp [alookup]
    · simp [alookup, hk, ih, Ne.symm hk]

theorem mem_alookup_nodup {l : List (κ × α)} {k : κ} {v : α}
    (hnd : (l.map Prod.fst).Nodup) (h : (k, v) ∈ l) : alookup k l = some v := by
  induction l with
  | nil => simp at h
  | cons p rest ih =>
    obtain ⟨k2, v2⟩ := p
    simp only [List.map_cons, List.nodup_cons] at hnd
    rcases List.mem_cons.mp h with h1 | h1
    · injection h1 with hk hv
      subst hk; subst hv
      simp [alookup]
    · have hk : k2 ≠ k := by
        intro he
        exact hnd.1 (he ▸ (List.mem_map.mpr ⟨(k, v), h1, rfl⟩))
      simp only [alookup, if_neg hk]
      exact ih hnd.2 h1

theorem alookup_append_some {l l2 : List (κ × α)} {k : κ} {v : α}
    (h : alookup k l = some v) : alookup k (l ++ l2) = some v := by
  induction l with
  | nil => simp [alookup] at h
  | cons p rest ih =>
    obtain ⟨k2, v2⟩ := p
    by_cases hk : k2 = k
    · subst hk; simp_all [alookup]
    · simp [alookup, hk] at h ⊢; exact ih h

theorem alookup_append_none {l l2 : List (κ × α)} {k : κ}
    (h : alookup k l = none) : alookup k (l ++ l2) = alookup k l2 := by
  induction l with
  | nil => simp
  | cons p rest ih =>
    obtain ⟨k2, v2⟩ := p
    by_cases hk : k2 = k
    · simp [alookup, hk] at h
    · simp [alookup, hk] at h ⊢; exact ih h

theorem alookup_mem_snd {l : List (κ × α)} {k : κ} {v : α}
    (h : alookup k l = some v) : v ∈ l.map Prod.snd :=
  List.mem_map.mpr ⟨(k, v), alookup_some_mem h, rfl⟩

theorem dictSet_self_mem (l : List (κ × α)) (k : κ) (v : α) : (k, v) ∈ dictSet l k v := by
  induction l with
  | nil => simp [dictSet]
  | cons p rest ih =>
    obtain ⟨k2, v2⟩ := p
    by_cases hk : k2 = k <;> simp [dictSet, hk, ih]

theorem mem_dictSet_of_ne {p : κ × α} {l : List (κ × α)} {k : κ} {v : α}
    (hp : p ∈ l) (hne : p.1 ≠ k) : p ∈ dictSet l k v := by
  induction l with
  | nil => simp at hp
  | cons q rest ih =>
    obtain ⟨k2, v2⟩ := q
    rcases List.mem_cons.mp hp with h1 | h1
    · subst h1
      by_cases hk : k2 = k
      · exact absurd hk hne
      · simp only [dictSet, if_neg hk]
        exact List.mem_cons_self _ _
    · by_cases hk : k2 = k
      · simp only [dictSet, if_pos hk]
        exact List.mem_cons_of_mem _ h1
      · simp only [dictSet, if_neg hk]
        exact List.mem_cons_of_mem _ (ih h1)

theorem mem_dictSet {p : κ × α} {l : List (κ × α)} {k : κ} {v : α}
    (hnd : (l.map Prod.fst).Nodup) (h : p ∈ dictSet l k v) :
    p = (k, v) ∨ (p ∈ l ∧ p.1 ≠ k) := by
  induction l with
  | nil => simp [dictSet] at h; simp [h]
  | cons q rest ih =>
    obtain ⟨k2, v2⟩ := q
    simp only [List.map_cons, List.nodup_cons] at hnd
    by_cases hk : k2 = k
    · subst hk
      simp only [dictSet, if_pos rfl] at h
      rcases List.mem_cons.mp h with h1 | h1
      · exact Or.inl h1
      · refine Or.inr ⟨List.mem_cons_of_mem _ h1, ?_⟩
        intro he
        exact hnd.1 (he ▸ (List.mem_map.mpr ⟨p, h1, rfl⟩))
    · simp only [dictSet, if_neg hk] at h
      rcases List.mem_cons.mp h with h1 | h1
      · subst h1; exact Or.inr ⟨List.mem_cons_self _ _, hk⟩
      · rcases ih hnd.2 h1 with h2 | h2
        · exact Or.inl h2
        · exact Or.inr ⟨List.mem_cons_of_mem _ h2.1, h2.2⟩

theorem dictSet_fst_subset {q : κ} {l : List (κ × α)} {k : κ} {v : α}
    (h : q ∈ (dictSet l k v).map Prod.fst) : q = k ∨ q ∈ l.map Prod.fst := by
  induction l with
  | nil => simp [dictSet] at h; simp [h]
  | cons p rest ih =>
    obtain ⟨k2, v2⟩ := p
    by_cases hk : k2 = k
    · simp only [dictSet, if_pos hk, List.map_cons, List.mem_cons] at h
      rcases h with h1 | h1
      · exact Or.inl h1
      · exact Or.inr (by simp [h1])
    · simp only [dictSet, if_neg hk, List.map_cons, List.mem_cons] at h
      rcases h with h1 | h1
      · exact Or.inr (by simp [h1])
      · rcases ih h1 with h2 | h2
        · exact Or.inl h2
        · exact Or.inr (by simp [h2])

theorem dictSet_nodup {l : List (κ × α)} {k : κ} {v : α}
    (hnd : (l.map Prod.fst).Nodup) : ((dictSet l k v).map Prod.fst).Nodup := by
  induction l with
  | nil => simp [dictSet]
  | cons p rest ih =>
    obtain ⟨k2, v2⟩ := p
    simp only [List.map_cons, List.nodup_cons] at hnd
    by_cases hk : k2 = k
    · simp only [dictSet, if_pos hk, List.map_cons, List.nodup_cons]
      exact ⟨hk ▸ hnd.1, hnd.2⟩
    · simp only [dictSet, if_neg hk, List.map_cons, List.nodup_cons]
      refine ⟨?_, ih hnd.2⟩
      intro hmem
      rcases dictSet_fst_subset hmem with h1 | h1
      · exact hk h1
      · exact hnd.1 h1

theorem alookup_dictSet_self (l : List (κ × α)) (k : κ) (v : α) :
    alookup k (dictSet l k v) = some v := by
  induction l with
  | nil => simp [dictSet, alookup]
  | cons p rest ih =>
    obtain ⟨k2, v2⟩ := p
    by_cases hk : k2 = k
    · simp [dictSet, if_pos hk, alookup]
    · simp only [dictSet, if_neg hk, alookup]
      simp [hk, ih]

theorem alookup_dictSet_ne {l : List (κ × α)} {k k2 : κ} {v : α}
    (h : k2 ≠ k) : alookup k2 (dictSet l k v) = alookup k2 l := by
  induction l with
  | nil => simp [dictSet, alookup, Ne.symm h]
  | cons p rest ih =>
    obtain ⟨k3, v3⟩ := p
    by_cases hk : k3 = k
    · subst hk
      simp [dictSet, alookup, Ne.symm h]
    · simp only [dictSet, if_neg hk, alookup]
      by_cases hk2 : k3 = k2 <;> simp [hk2, ih]

theorem alookup_removeFS_self (fs : FS) (p : String) :
    alookup p (removeFS fs p) = none := by
  induction fs with
  | nil => simp [removeFS, alookup]
  | cons e rest ih =>
    obtain ⟨q, v⟩ := e
    unfold removeFS at ih ⊢
    rw [List.filter_cons]
    by_cases hq : q = p
    · simp [hq, ih]
    · have : ((q, v).1 != p) = true := by simp [hq]
      rw [if_pos this]
      simp only [alookup, if_neg hq]
      exact ih

theorem alookup_removeFS_ne {fs : FS} {p q : String} (h : q ≠ p) :
    alookup q (removeFS fs p) = alookup q fs := by
  induction fs with
  | nil => simp [removeFS]
  | cons e rest ih =>
    obtain ⟨r, v⟩ := e
    unfold removeFS at ih ⊢
    rw [List.filter_cons]
    by_cases hr : r = p
    · have : ((r, v).1 != p) = false := by simp [hr]
      rw [if_neg (by simp [this])]
      have hrq : r ≠ q := fun he => h (he ▸ hr)
      simp only [alookup, if_neg hrq]
      exact ih
    · have : ((r, v).1 != p) = true := by simp [hr]
      rw [if_pos this]
      by_cases hrq : r = q
      · simp [alookup, hrq]
      · simp only [alookup, if_neg hrq]
        exact ih

theorem removeFS_of_none {fs : FS} {p : String} (h : alookup p fs = none) :
    removeFS fs p = fs := by
  induction fs with
  | nil => rfl
  | cons e rest ih =>
    obtain ⟨q, v⟩ := e
    by_cases hq : q = p
    · simp [alookup, hq] at h
    · simp only [alookup, if_neg hq] at h
      unfold removeFS at ih ⊢
      rw [List.filter_cons]
      have : ((q, v).1 != p) = true := by simp [hq]
      rw [if_pos this, ih h]

theorem alookup_setFS_self (fs : FS) (p : String) (v : Nat) :
    alookup p (setFS fs p v) = some v := by
  unfold setFS
  rw [alookup_append_none (alookup_removeFS_self fs p)]
  simp [alookup]

end AssocLemmas

/-- Case-analysis principle for `find_dupes_step`, one hypothesis per
control path of the per-candidate loop body.  Every invariant proof
below goes through this eliminator rather than re-splitting the
definition. -/
theorem find_dupes_step_cases (opts : Options) (hashFn : String → Option Nat)
    (st : DetectState) (c : Candidate) (P : StepResult → Prop)
    (hskip1 : c.is_file = false → P (.ok { st with processed := st.processed ++ [c] }))
    (hskip2 : c.is_file = true → (c.st_size : Int) < opts.min_size →
      P (.ok { st with processed := st.processed ++ [c] }))
    (hnew : c.is_file = true → ¬((c.st_size : Int) < opts.min_size) →
      alookup c.st_size st.buckets = none →
      P (.ok { st with
               processed := st.processed ++ [c],
               buckets := dictSet st.buckets c.st_size (BucketVal.info (mkInfo c)) }))
    (hdictskip : ∀ m, c.is_file = true → ¬((c.st_size : Int) < opts.min_size) →
      alookup c.st_size st.buckets = some (BucketVal.dict m) →
      m.any (fun p => p.2.inode == c.st_ino) = true →
      P (.ok { st with processed := st.processed ++ [c] }))
    (hdicterr : ∀ m, c.is_file = true → ¬((c.st_size : Int) < opts.min_size) →
      alookup c.st_size st.buckets = some (BucketVal.dict m) →
      m.any (fun p => p.2.inode == c.st_ino) = false →
      hashFn c.name = none →
      P (.ioError { st with processed := st.processed ++ [c] }))
    (hdictemit : ∀ m th orig, c.is_file = true → ¬((c.st_size : Int) < opts.min_size) →
      alookup c.st_size st.buckets = some (BucketVal.dict m) →
      m.any (fun p => p.2.inode == c.st_ino) = false →
      hashFn c.name = some th → alookup th m = some orig →
      P (.ok { st with
               processed := st.processed ++ [c],
               hashed := st.hashed ++ [(c.st_dev, c.st_ino)],
               emitted := st.emitted ++ [(orig, mkInfo c, th)] }))
    (hdictins : ∀ m th, c.is_file = true → ¬((c.st_size : Int) < opts.min_size) →
      alookup c.st_size st.buckets = some (BucketVal.dict m) →
      m.any (fun p => p.2.inode == c.st_ino) = false →
      hashFn c.name = some th → alookup th m = none →
      P (.ok { st with
               processed := st.processed ++ [c],
               hashed := st.hashed ++ [(c.st_dev, c.st_ino)],
               buckets := dictSet st.buckets c.st_size
                 (BucketVal.dict (m ++ [(th, mkInfo c)])) }))
    (hinfoskip : ∀ e, c.is_file = true → ¬((c.st_size : Int) < opts.min_size) →
      alookup c.st_size st.buckets = some (BucketVal.info e) →
      e.inode = c.st_ino →
      P (.ok { st with processed := st.processed ++ [c] }))
    (hinfoerr1 : ∀ e, c.is_file = true → ¬((c.st_size : Int) < opts.min_size) →
      alookup c.st_size st.buckets = some (BucketVal.info e) →
      e.inode ≠ c.st_ino → hashFn c.name = none →
      P (.ioError { st with processed := st.processed ++ [c] }))
    (hinfoerr2 : ∀ e th, c.is_file = true → ¬((c.st_size : Int) < opts.min_size) →
      alookup c.st_size st.buckets = some (BucketVal.info e) →
      e.inode ≠ c.st_ino → hashFn c.name = some th → hashFn e.name = none →
      P (.ioError { st with
                    processed := st.processed ++ [c],
                    hashed := st.hashed ++ [(c.st_dev, c.st_ino)] }))
    (hinfoemit : ∀ e th eh, c.is_file = true → ¬((c.st_size : Int) < opts.min_size) →
      alookup c.st_size st.buckets = some (BucketVal.info e) →
      e.inode ≠ c.st_ino → hashFn c.name = some th → hashFn e.name = some eh →
      eh = th →
      P (.ok { st with
               processed := st.processed ++ [c],
               hashed := st.hashed ++ [(c.st_dev, c.st_ino), (e.dev, e.inode)],
               buckets := dictSet st.buckets c.st_size (BucketVal.dict [(eh, e)]),
               emitted := st.emitted ++ [(e, mkInfo c, th)] }))
    (hinfoins : ∀ e th eh, c.is_file = true → ¬((c.st_size : Int) < opts.min_size) →
      alookup c.st_size st.buckets = some (BucketVal.info e) →
      e.inode ≠ c.st_ino → hashFn c.name = some th → hashFn e.name = some eh →
      eh ≠ th →
      P (.ok { st with
               processed := st.processed ++ [c],
               hashed := st.hashed ++ [(c.st_dev, c.st_ino), (e.dev, e.inode)],
               buckets := dictSet st.buckets c.st_size
                 (BucketVal.dict [(eh, e), (th, mkInfo c)]) })) :
    P (find_dupes_step opts hashFn st c) := by
  unfold find_dupes_step
  split
  · next hcf => exact hskip1 hcf
  · next hcf =>
    have hcf2 : c.is_file = true := by
      cases hx : c.is_file
      · exact absurd hx hcf
      · rfl
    split
    · next hmin => exact hskip2 hcf2 hmin
    · next hmin =>
      split
      · next m hb =>
        split
        · next hany => exact hdictskip m hcf2 hmin hb hany
        · next hany =>
          have hany2 : (m.any fun p => p.2.inode == c.st_ino) = false := by
            cases hx : m.any fun p => p.2.inode == c.st_ino
            · rfl
            · exact absurd hx hany
          split
          · next hh => exact hdicterr m hcf2 hmin hb hany2 hh
          · next th hh =>
            split
            · next orig ho => exact hdictemit m th orig hcf2 hmin hb hany2 hh ho
            · next ho => exact hdictins m th hcf2 hmin hb hany2 hh ho
      · next e hb =>
        split
        · next hie => exact hinfoskip e hcf2 hmin hb hie
        · next hie =>
          split
          · next hh => exact hinfoerr1 e hcf2 hmin hb hie hh
          · next th hh =>
            split
            · next he => exact hinfoerr2 e th hcf2 hmin hb hie hh he
            · next eh he =>
              split
              · next heq => exact hinfoemit e th eh hcf2 hmin hb hie hh he heq
              · next heq => exact hinfoins e th eh hcf2 hmin hb hie hh he heq
      · next hb => exact hnew hcf2 hmin hb

/-- The step always appends the candidate to the ghost `processed` log,
whatever branch it takes. -/
theorem step_state_processed (opts : Options) (hashFn : String → Option Nat)
    (st : DetectState) (c : Candidate) :
    ((find_dupes_step opts hashFn st c).state).processed = st.processed ++ [c] := by
  refine find_dupes_step_cases opts hashFn st c
    (fun r => (r.state).processed = st.processed ++ [c]) ?_ ?_ ?_ ?_ ?_ ?_ ?_ ?_ ?_ ?_ ?_ ?_ <;>
    intros <;> rfl

/-- Unfolding equation for a pass over a cons cell. -/
theorem find_dupes_cons (opts : Options) (hashFn : String → Option Nat)
    (st : DetectState) (c : Candidate) (cs : List Candidate) :
    find_dupes opts hashFn st (c :: cs) =
      match find_dupes_step opts hashFn st c with
      | .ok st2 => find_dupes opts hashFn st2 cs
      | .ioError st2 => (st2, true) := rfl

/-- Invariance along a whole pass, for a property preserved by both
successful and failing steps. -/
theorem find_dupes_inv (opts : Options) (hashFn : String → Option Nat)
    (P : DetectState → Prop)
    (hok : ∀ st c st2, find_dupes_step opts hashFn st c = .ok st2 → P st → P st2)
    (herr : ∀ st c st2, find_dupes_step opts hashFn st c = .ioError st2 → P st → P st2) :
    ∀ cs st st2 ab, P st → find_dupes opts hashFn st cs = (st2, ab) → P st2 := by
  intro cs
  induction cs with
  | nil =>
    intro st st2 ab hP h
    simp only [find_dupes] at h
    cases h
    exact hP
  | cons c cs ih =>
    intro st st2 ab hP h
    rw [find_dupes_cons] at h
    cases hstep : find_dupes_step opts hashFn st c with
    | ok s1 =>
      rw [hstep] at h
      exact ih s1 st2 ab (hok st c s1 hstep hP) h
    | ioError s1 =>
      rw [hstep] at h
      injection h with h1 h2
      subst h1
      exact herr st c _ hstep hP

/-- Invariance along a pass that was not aborted, for a property that
only successful steps need preserve; `Q` is a per-candidate hypothesis
(used for stat-consistency of the input). -/
theorem find_dupes_inv_ok (opts : Options) (hashFn : String → Option Nat)
    (P : DetectState → Prop) (Q : Candidate → Prop)
    (hok : ∀ st c st2, Q c → find_dupes_step opts hashFn st c = .ok st2 → P st → P st2) :
    ∀ cs st st2, (∀ c ∈ cs, Q c) → P st → find_dupes opts hashFn st cs = (st2, false) → P st2 := by
  intro cs
  induction cs with
  | nil =>
    intro st st2 hQ hP h
    simp only [find_dupes] at h
    cases h
    exact hP
  | cons c cs ih =>
    intro st st2 hQ hP h
    rw [find_dupes_cons] at h
    cases hstep : find_dupes_step opts hashFn st c with
    | ok s1 =>
      rw [hstep] at h
      exact ih s1 st2 (fun x hx => hQ x (List.mem_cons_of_mem _ hx))
        (hok st c s1 (hQ c (List.mem_cons_self _ _)) hstep hP) h
    | ioError s1 =>
      rw [hstep] at h
      cases h

/-- The candidates a pass consumes form a prefix of its input, in input
order (the pass stops early exactly when a hashing error aborts it). -/
theorem find_dupes_processed (opts : Options) (hashFn : String → Option Nat) :
    ∀ (cs : List Candidate) (st : DetectState),
      ∃ pre suf, cs = pre ++ suf ∧
        (find_dupes opts hashFn st cs).1.processed = st.processed ++ pre := by
  intro cs
  induction cs with
  | nil =>
    intro st
    exact ⟨[], [], by simp, by simp [find_dupes]⟩
  | cons c cs ih =>
    intro st
    rw [find_dupes_cons]
    cases hstep : find_dupes_step opts hashFn st c with
    | ok s1 =>
      obtain ⟨pre, suf, h1, h2⟩ := ih s1
      refine ⟨c :: pre, suf, by simp [h1], ?_⟩
      have hp : s1.processed = st.processed ++ [c] := by
        have := step_state_processed opts hashFn st c
        rw [hstep] at this
        exact this
      simp [h2, hp]
    | ioError s1 =>
      refine ⟨[c], cs, by simp, ?_⟩
      have hp : s1.processed = st.processed ++ [c] := by
        have := step_state_processed opts hashFn st c
        rw [hstep] at this
        exact this
      simp [hp]

/-- C1: the claim says buckets are keyed by `(device_id, size)` so that
two same-content, same-size files on distinct devices never yield an
emitted triple.  The code keys `device_size_info_dict` by size alone, so
for files "a" (device 1, inode 1) and "b" (device 2, inode 2), both of
size 5 with identical content, the pass emits the cross-device triple
`(a, b, hash)` — contradicting the claim (the variable's name and the
"size+dev" comment at line 132 show the claim matches the intent). -/
theorem C1_cross_device_pair_emitted :
    (find_dupes defaultOptions hashAll7 initState [c1a, c1b]).1.emitted =
      [({ name := "a", dev := 1, inode := 1 }, { name := "b", dev := 2, inode := 2 }, 7)] := by
  decide

/-- C2: the claim says a failure processing one pair is caught at that
pair's boundary in every action mode and later pairs are still
processed.  In the hardlink and symlink modes, `dedupe` calls
`hardlink(a, b)` / `symlink(a, b)` with two of the three required
arguments, so Python raises `TypeError` at the very first pair; the
`except OSError` handler cannot catch it, no failure is reported, and
the second pair is never processed.  The print mode, by contrast,
handles every pair. -/
theorem C2_typeerror_halts_run :
    dedupe { defaultOptions with action := "hardlink" } [] [tW1, tW2] = ([], some PyErr.typeError) ∧
    dedupe { defaultOptions with action := "symlink" } [] [tW1, tW2] = ([], some PyErr.typeError) ∧
    dedupe defaultOptions [] [tW1, tW2] =
      ([DedupeEvent.reported "a" "b", DedupeEvent.reported "a" "c"], none) := by
  refine ⟨rfl, rfl, rfl⟩

/-- C3 counterexample: the claim says a candidate that becomes
unreadable before hashing aborts that candidate only, with the pass
continuing over the remaining candidates.  With "b" unreadable, the run
aborts: candidate "c" (same content as "a") is never consumed and no
pair is emitted. -/
theorem C3_io_error_aborts_pass :
    (find_dupes defaultOptions hashBFails initState [c3a, c3b, c3c]).2 = true ∧
    (find_dupes defaultOptions hashBFails initState [c3a, c3b, c3c]).1.processed = [c3a, c3b] ∧
    (find_dupes defaultOptions hashBFails initState [c3a, c3b, c3c]).1.emitted = [] := by
  refine ⟨rfl, rfl, rfl⟩

/-- C3 amended: a hashing failure leaves the bucket map and the emitted
sequence exactly as they were before the failed candidate (no partial
hash insertion, no bucket transition), but the exception is not caught:
the whole detection pass ends there and the remaining candidates are
not processed. -/
theorem C3_error_leaves_buckets_unchanged (opts : Options)
    (hashFn : String → Option Nat) (st st2 : DetectState) (c : Candidate)
    (cs : List Candidate)
    (h : find_dupes_step opts hashFn st c = .ioError st2) :
    st2.buckets = st.buckets ∧ st2.emitted = st.emitted ∧
    find_dupes opts hashFn st (c :: cs) = (st2, true) := by
  have hmain := find_dupes_step_cases opts hashFn st c
    (fun r => r = StepResult.ioError st2 → st2.buckets = st.buckets ∧ st2.emitted = st.emitted)
    (by intro _ hr; cases hr)
    (by intro _ _ hr; cases hr)
    (by intro _ _ _ hr; cases hr)
    (by intro _ _ _ _ _ hr; cases hr)
    (by intro _ _ _ _ _ _ hr; injection hr with hr; rw [← hr]; exact ⟨rfl, rfl⟩)
    (by intro _ _ _ _ _ _ _ _ _ hr; cases hr)
    (by intro _ _ _ _ _ _ _ _ hr; cases hr)
    (by intro _ _ _ _ _ hr; cases hr)
    (by intro _ _ _ _ _ _ hr; injection hr with hr; rw [← hr]; exact ⟨rfl, rfl⟩)
    (by intro _ _ _ _ _ _ _ _ hr; injection hr with hr; rw [← hr]; exact ⟨rfl, rfl⟩)
    (by intro _ _ _ _ _ _ _ _ _ _ hr; cases hr)
    (by intro _ _ _ _ _ _ _ _ _ _ hr; cases hr)
  exact ⟨(hmain h).1, (hmain h).2, by rw [find_dupes_cons, h]⟩

/-- Witness for the amended C3 theorem: the state reached after "a" of
the aborted scenario, failing on "b". -/
theorem C3_error_leaves_buckets_unchanged_witness :
    ({ buckets := [(5, BucketVal.info { name := "a", dev := 1, inode := 1 })],
       emitted := [], hashed := [],
       processed := [c3a, c3b] } : DetectState).buckets =
      ({ buckets := [(5, BucketVal.info { name := "a", dev := 1, inode := 1 })],
         emitted := [], hashed := [], processed := [c3a] } : DetectState).buckets ∧
    ({ buckets := [(5, BucketVal.info { name := "a", dev := 1, inode := 1 })],
       emitted := [], hashed := [],
       processed := [c3a, c3b] } : DetectState).emitted =
      ({ buckets := [(5, BucketVal.info { name := "a", dev := 1, inode := 1 })],
         emitted := [], hashed := [], processed := [c3a] } : DetectState).emitted ∧
    find_dupes defaultOptions hashBFails
      { buckets := [(5, BucketVal.info { name := "a", dev := 1, inode := 1 })],
        emitted := [], hashed := [], processed := [c3a] } [c3b, c3c] =
      ({ buckets := [(5, BucketVal.info { name := "a", dev := 1, inode := 1 })],
         emitted := [], hashed := [], processed := [c3a, c3b] }, true) :=
  C3_error_leaves_buckets_unchanged defaultOptions hashBFails _ _ c3b [c3c] (by decide)

/-- C4 counterexample: the claim says each distinct `(device, inode)` is
hashed at most once per pass, and the spec adds that a file hard-linked
to a previously seen file is never hashed nor emitted.  With p2 and p3
two paths to inode 3 (same content as p1), inode 3 is hashed twice and
p3 is emitted a second time: the emitted duplicate p2 was never inserted
into the bucket, so the inode check cannot recognize p3. -/
theorem C4_inode_hashed_twice :
    countHash (find_dupes defaultOptions hashAll7 initState [c4p1, c4p2, c4p3]).1 1 3 = 2 ∧
    (find_dupes defaultOptions hashAll7 initState [c4p1, c4p2, c4p3]).1.emitted =
      [({ name := "p1", dev := 1, inode := 2 }, { name := "p2", dev := 1, inode := 3 }, 7),
       ({ name := "p1", dev := 1, inode := 2 }, { name := "p3", dev := 1, inode := 3 }, 7)] := by
  refine ⟨by decide, by decide⟩

/-- C5 counterexample: the claim says that when link creation at the
temporary name fails because the name exists, the creation is retried
under a varied name until it succeeds.  With a stale entry at the temp
name "d/h", `hardlink` propagates `EEXIST` and leaves the filesystem
unchanged — no retry, no success (the retry loop exists only in
`templink`, which nothing calls). -/
theorem C5_no_retry_on_eexist :
    hardlink true fsColl "orig" "d/b" "h" =
      { fs := fsColl, trace := [fsColl], err := some FsErr.eexist } := by
  decide

/-- C5 amended: in the protocol actually invoked (`link`, via
`hardlink`), a link-creation failure of any kind — including the
temporary name already existing — propagates immediately with the
filesystem unchanged; it is fatal for that pair only (the per-pair
boundary of `dedupe` is the only catch point), and no retry under a
varied name happens. -/
theorem C5_link_failure_fatal (renameOk : Bool) (fs : FS)
    (patha pathb hsh : String) (e : FsErr)
    (h : os_link fs patha (tempNameOf pathb hsh) = .error e) :
    hardlink renameOk fs patha pathb hsh = { fs := fs, trace := [fs], err := some e } := by
  unfold hardlink link
  rw [h]
  rfl

/-- Witness for the amended C5 theorem at the stale-temp-name directory. -/
theorem C5_link_failure_fatal_witness :
    hardlink true fsColl "orig" "d/b" "h" =
      { fs := fsColl, trace := [fsColl], err := some FsErr.eexist } :=
  C5_link_failure_fatal true fsColl "orig" "d/b" "h" FsErr.eexist rfl

/-- C9 counterexample: the claim says the minimum file-size threshold
defaults to 0 (no minimum); the option parser declares `default=1`, so
empty files are excluded by default. -/
theorem C9_default_min_size_not_zero :
    defaultOptions.min_size = 1 ∧ defaultOptions.min_size ≠ 0 := by
  refine ⟨rfl, by decide⟩

/-- C9 amended: the minimum file-size threshold defaults to 1 (so
zero-byte files are skipped by default, not 0 = no minimum); every
candidate below the configured minimum is dropped before any bucket
lookup or hashing, and with `min_size = 10` over files of size 5 the
pass emits nothing and hashes nothing. -/
theorem C9_min_size_skip (opts : Options) (hashFn : String → Option Nat)
    (st : DetectState) (c : Candidate)
    (h : (c.st_size : Int) < opts.min_size) :
    defaultOptions.min_size = 1 ∧
    find_dupes_step opts hashFn st c = .ok { st with processed := st.processed ++ [c] } ∧
    (find_dupes { defaultOptions with min_size := 10 } hashAll7 initState c9Small).1.emitted = [] ∧
    (find_dupes { defaultOptions with min_size := 10 } hashAll7 initState c9Small).1.hashed = [] := by
  refine ⟨rfl, ?_, by decide, by decide⟩
  unfold find_dupes_step
  cases hx : c.is_file
  · rw [if_pos rfl]
  · rw [if_neg (by simp), if_pos h]

/-- Witness for the amended C9 theorem at a size-5 candidate under
minimum 10. -/
theorem C9_min_size_skip_witness :
    defaultOptions.min_size = 1 ∧
    find_dupes_step { defaultOptions with min_size := 10 } hashAll7 initState
        { name := "x", is_file := true, st_size := 5, st_dev := 1, st_ino := 1 } =
      .ok { initState with
            processed := initState.processed ++
              [{ name := "x", is_file := true, st_size := 5, st_dev := 1, st_ino := 1 }] } ∧
    (find_dupes { defaultOptions with min_size := 10 } hashAll7 initState c9Small).1.emitted = [] ∧
    (find_dupes { defaultOptions with min_size := 10 } hashAll7 initState c9Small).1.hashed = [] :=
  C9_min_size_skip { defaultOptions with min_size := 10 } hashAll7 initState
    { name := "x", is_file := true, st_size := 5, st_dev := 1, st_ino := 1 } (by decide)

/-- C6: first size collision on a bucket holding a single unhashed file
with a different inode — both files are hashed (once each in this step),
the bucket transitions to the dict variant keyed by the existing file's
hash, the pair `(existing, new, hash)` is emitted iff the hashes agree,
and the new file is inserted under its own hash iff they differ; and the
concrete A/B/C scenario emits exactly `(A, B, hash("hello"))` with C
hashed once and producing no pair. -/
theorem C6_first_size_collision :
    (∀ (opts : Options) (hashFn : String → Option Nat) (st : DetectState)
       (c : Candidate) (e : FileInfo) (th eh : Nat),
       c.is_file = true → ¬((c.st_size : Int) < opts.min_size) →
       alookup c.st_size st.buckets = some (BucketVal.info e) →
       e.inode ≠ c.st_ino → hashFn c.name = some th → hashFn e.name = some eh →
       find_dupes_step opts hashFn st c = .ok { st with
         processed := st.processed ++ [c],
         hashed := st.hashed ++ [(c.st_dev, c.st_ino), (e.dev, e.inode)],
         buckets := dictSet st.buckets c.st_size
           (BucketVal.dict (if eh = th then [(eh, e)] else [(eh, e), (th, mkInfo c)])),
         emitted := st.emitted ++ (if eh = th then [(e, mkInfo c, th)] else []) }) ∧
    (find_dupes defaultOptions hashC6 initState [c6A, c6B, c6C]).1.emitted =
      [({ name := "A", dev := 1, inode := 1 }, { name := "B", dev := 1, inode := 2 }, 100)] ∧
    (find_dupes defaultOptions hashC6 initState [c6A, c6B, c6C]).1.hashed =
      [(1, 2), (1, 1), (1, 3)] := by
  refine ⟨?_, by decide, by decide⟩
  intro opts hashFn st c e th eh hfile hmin hb hne hh he2
  refine find_dupes_step_cases opts hashFn st c (fun r => r = .ok _)
    ?_ ?_ ?_ ?_ ?_ ?_ ?_ ?_ ?_ ?_ ?_ ?_
  · intro h1; rw [hfile] at h1; cases h1
  · intro _ h2; exact absurd h2 hmin
  · intro _ _ h3; rw [hb] at h3; cases h3
  · intro m _ _ h3 _; rw [hb] at h3; injection h3 with h3; cases h3
  · intro m _ _ h3 _ _; rw [hb] at h3; injection h3 with h3; cases h3
  · intro m th2 orig _ _ h3 _ _ _; rw [hb] at h3; injection h3 with h3; cases h3
  · intro m th2 _ _ h3 _ _ _; rw [hb] at h3; injection h3 with h3; cases h3
  · intro e2 _ _ h3 h4
    rw [hb] at h3; injection h3 with h3; injection h3 with h3
    subst h3
    exact absurd h4 hne
  · intro e2 _ _ h3 _ h5
    rw [hh] at h5; cases h5
  · intro e2 th2 _ _ h3 _ h5 h6
    rw [hb] at h3; injection h3 with h3; injection h3 with h3
    subst h3
    rw [he2] at h6; cases h6
  · intro e2 th2 eh2 _ _ h3 _ h5 h6 h7
    rw [hb] at h3; injection h3 with h3; injection h3 with h3
    subst h3
    rw [hh] at h5; injection h5 with h5
    subst h5
    rw [he2] at h6; injection h6 with h6
    subst h6
    simp only [if_pos h7]
  · intro e2 th2 eh2 _ _ h3 _ h5 h6 h7
    rw [hb] at h3; injection h3 with h3; injection h3 with h3
    subst h3
    rw [hh] at h5; injection h5 with h5
    subst h5
    rw [he2] at h6; injection h6 with h6
    subst h6
    simp only [if_neg h7, List.append_nil]

/-- Witness for the bucket-transition theorem: candidate B arriving at a
bucket holding unhashed A, with equal digests. -/
theorem C6_first_size_collision_witness :
    find_dupes_step defaultOptions hashC6 stInfoA c6B = .ok { stInfoA with
      processed := stInfoA.processed ++ [c6B],
      hashed := stInfoA.hashed ++
        [(c6B.st_dev, c6B.st_ino),
         (({ name := "A", dev := 1, inode := 1 } : FileInfo).dev,
          ({ name := "A", dev := 1, inode := 1 } : FileInfo).inode)],
      buckets := dictSet stInfoA.buckets c6B.st_size
        (BucketVal.dict (if (100 : Nat) = 100
          then [(100, { name := "A", dev := 1, inode := 1 })]
          else [(100, { name := "A", dev := 1, inode := 1 }), (100, mkInfo c6B)])),
      emitted := stInfoA.emitted ++ (if (100 : Nat) = 100
        then [({ name := "A", dev := 1, inode := 1 }, mkInfo c6B, 100)] else []) } :=
  C6_first_size_collision.1 defaultOptions hashC6 stInfoA c6B
    { name := "A", dev := 1, inode := 1 } 100 100 rfl (by decide) (by decide) (by decide) rfl rfl

/-- C7: a key of a hashed bucket's dict is never overwritten for the
rest of the pass (the stored value keeps naming the first-seen file),
and a later same-size candidate whose digest equals the key is emitted
as a duplicate of that stored original and is not inserted (the bucket
map is left unchanged by that step). -/
theorem C7_hash_key_never_overwritten (opts : Options) (hashFn : String → Option Nat)
    (cs : List Candidate) (st st2 : DetectState) (ab : Bool) (s h : Nat)
    (m : List (Nat × FileInfo)) (f : FileInfo)
    (hb : alookup s st.buckets = some (BucketVal.dict m))
    (hf : alookup h m = some f)
    (hrun : find_dupes opts hashFn st cs = (st2, ab)) :
    (∃ m2, alookup s st2.buckets = some (BucketVal.dict m2) ∧ alookup h m2 = some f) ∧
    (∀ c : Candidate, c.is_file = true → ¬((c.st_size : Int) < opts.min_size) →
       c.st_size = s → (m.any fun p => p.2.inode == c.st_ino) = false →
       hashFn c.name = some h →
       find_dupes_step opts hashFn st c = .ok { st with
         processed := st.processed ++ [c],
         hashed := st.hashed ++ [(c.st_dev, c.st_ino)],
         emitted := st.emitted ++ [(f, mkInfo c, h)] }) := by
  constructor
  · have hstepAll : ∀ (sta : DetectState) (c : Candidate),
        (∃ m2, alookup s sta.buckets = some (BucketVal.dict m2) ∧ alookup h m2 = some f) →
        (∃ m2, alookup s ((find_dupes_step opts hashFn sta c).state).buckets =
            some (BucketVal.dict m2) ∧ alookup h m2 = some f) := by
      intro sta c hP
      refine find_dupes_step_cases opts hashFn sta c
        (fun r => ∃ m2, alookup s (r.state).buckets = some (BucketVal.dict m2) ∧
          alookup h m2 = some f) ?_ ?_ ?_ ?_ ?_ ?_ ?_ ?_ ?_ ?_ ?_ ?_
      · intro _; exact hP
      · intro _ _; exact hP
      · intro _ _ h3
        obtain ⟨m2, hb2, hf2⟩ := hP
        have hcs : c.st_size ≠ s := by
          intro he; rw [he, hb2] at h3; cases h3
        exact ⟨m2, by
          show alookup s (dictSet sta.buckets c.st_size (BucketVal.info (mkInfo c))) = _
          rw [alookup_dictSet_ne (Ne.symm hcs), hb2], hf2⟩
      · intro _ _ _ _ _; exact hP
      · intro _ _ _ _ _ _; exact hP
      · intro _ _ _ _ _ _ _ _ _; exact hP
      · intro m3 th _ _ h3 _ _ _
        obtain ⟨m2, hb2, hf2⟩ := hP
        by_cases hcs : c.st_size = s
        · rw [hcs, hb2] at h3
          injection h3 with h3; injection h3 with h3
          subst h3
          refine ⟨m2 ++ [(th, mkInfo c)], ?_, alookup_append_some hf2⟩
          show alookup s (dictSet sta.buckets c.st_size _) = _
          rw [hcs, alookup_dictSet_self]
        · refine ⟨m2, ?_, hf2⟩
          show alookup s (dictSet sta.buckets c.st_size _) = _
          rw [alookup_dictSet_ne (Ne.symm hcs), hb2]
      · intro _ _ _ _ _; exact hP
      · intro _ _ _ _ _ _; exact hP
      · intro _ _ _ _ _ _ _ _; exact hP
      · intro e th eh _ _ h3 _ _ _ _
        obtain ⟨m2, hb2, hf2⟩ := hP
        have hcs : c.st_size ≠ s := by
          intro he; rw [he, hb2] at h3; injection h3 with h3; cases h3
        refine ⟨m2, ?_, hf2⟩
        show alookup s (dictSet sta.buckets c.st_size _) = _
        rw [alookup_dictSet_ne (Ne.symm hcs), hb2]
      · intro e th eh _ _ h3 _ _ _ _
        obtain ⟨m2, hb2, hf2⟩ := hP
        have hcs : c.st_size ≠ s := by
          intro he; rw [he, hb2] at h3; injection h3 with h3; cases h3
        refine ⟨m2, ?_, hf2⟩
        show alookup s (dictSet sta.buckets c.st_size _) = _
        rw [alookup_dictSet_ne (Ne.symm hcs), hb2]
    refine find_dupes_inv opts hashFn
      (fun stx => ∃ m2, alookup s stx.buckets = some (BucketVal.dict m2) ∧ alookup h m2 = some f)
      ?_ ?_ cs st st2 ab ⟨m, hb, hf⟩ hrun
    · intro sta c stb hstep hP
      have := hstepAll sta c hP
      rw [hstep] at this
      exact this
    · intro sta c stb hstep hP
      have := hstepAll sta c hP
      rw [hstep] at this
      exact this
  · intro c hc1 hc2 hc3 hc4 hc5
    refine find_dupes_step_cases opts hashFn st c (fun r => r = .ok _)
      ?_ ?_ ?_ ?_ ?_ ?_ ?_ ?_ ?_ ?_ ?_ ?_
    · intro h1; rw [hc1] at h1; cases h1
    · intro _ h2; exact absurd h2 hc2
    · intro _ _ h3; rw [hc3, hb] at h3; cases h3
    · intro m2 _ _ h3 h4
      rw [hc3, hb] at h3; injection h3 with h3; injection h3 with h3
      subst h3
      rw [hc4] at h4; cases h4
    · intro m2 _ _ h3 _ h5
      rw [hc5] at h5; cases h5
    · intro m2 th orig _ _ h3 _ h5 ho
      rw [hc3, hb] at h3; injection h3 with h3; injection h3 with h3
      subst h3
      rw [hc5] at h5; injection h5 with h5
      subst h5
      rw [hf] at ho; injection ho with ho
      subst ho
      rfl
    · intro m2 th _ _ h3 _ h5 ho
      rw [hc3, hb] at h3; injection h3 with h3; injection h3 with h3
      subst h3
      rw [hc5] at h5; injection h5 with h5
      subst h5
      rw [hf] at ho; cases ho
    · intro e _ _ h3 _
      rw [hc3, hb] at h3; injection h3 with h3; cases h3
    · intro e _ _ h3 _ _
      rw [hc3, hb] at h3; injection h3 with h3; cases h3
    · intro e th _ _ h3 _ _ _
      rw [hc3, hb] at h3; injection h3 with h3; cases h3
    · intro e th eh _ _ h3 _ _ _ _
      rw [hc3, hb] at h3; injection h3 with h3; cases h3
    · intro e th eh _ _ h3 _ _ _ _
      rw [hc3, hb] at h3; injection h3 with h3; cases h3

/-- Witness for the never-overwritten theorem: a hashed bucket holding A
under digest 100, with B (same digest) arriving. -/
theorem C7_hash_key_never_overwritten_witness :
    (∃ m2, alookup 5 (find_dupes defaultOptions hashC6 stDictA [c6B]).1.buckets =
        some (BucketVal.dict m2) ∧
        alookup 100 m2 = some { name := "A", dev := 1, inode := 1 }) ∧
    find_dupes_step defaultOptions hashC6 stDictA c6B = .ok { stDictA with
      processed := stDictA.processed ++ [c6B],
      hashed := stDictA.hashed ++ [(c6B.st_dev, c6B.st_ino)],
      emitted := stDictA.emitted ++
        [({ name := "A", dev := 1, inode := 1 }, mkInfo c6B, 100)] } := by
  have h := C7_hash_key_never_overwritten defaultOptions hashC6 [c6B] stDictA
    (find_dupes defaultOptions hashC6 stDictA [c6B]).1
    (find_dupes defaultOptions hashC6 stDictA [c6B]).2 5 100
    [(100, { name := "A", dev := 1, inode := 1 })] { name := "A", dev := 1, inode := 1 }
    (by decide) (by decide) rfl
  exact ⟨h.1, h.2 c6B rfl (by decide) (by decide) (by decide) rfl⟩

/-- Inversion for a successful `os.link`: the destination was free, the
source existed, and the new entry is appended. -/
theorem os_link_ok {fs : FS} {src dst : String} {fs2 : FS}
    (h : os_link fs src dst = .ok fs2) :
    alookup dst fs = none ∧ ∃ v, alookup src fs = some v ∧ fs2 = fs ++ [(dst, v)] := by
  unfold os_link at h
  cases hd : alookup dst fs with
  | some v => rw [hd] at h; cases h
  | none =>
    rw [hd] at h
    refine ⟨rfl, ?_⟩
    cases hx : alookup src fs with
    | none => rw [hx] at h; cases h
    | some v =>
      rw [hx] at h
      injection h with h
      exact ⟨v, rfl, h.symm⟩

/-- C8: in the link-replacement protocol (`hardlink`, i.e. `link` with
`os.link`), at every observable instant the duplicate's name resolves to
its old content or to the original's content — it is never removed or
replaced before the replacement link exists, since the only mutations
are the temp-name link, the atomic rename, and the temp-name unlink;
and when the rename fails, the temporary entry is removed before the
error propagates: the filesystem is restored exactly to its initial
state with the failure reported. -/
theorem C8_rename_failure_cleanup_and_order (renameOk : Bool) (fs : FS)
    (patha pathb hsh : String) (va vb : Nat)
    (hpa : alookup patha fs = some va) (hpb : alookup pathb fs = some vb)
    (htmp : tempNameOf pathb hsh ≠ pathb) :
    (∀ fs2 ∈ (hardlink renameOk fs patha pathb hsh).trace,
        alookup pathb fs2 = some vb ∨ alookup pathb fs2 = some va) ∧
    (renameOk = false → alookup (tempNameOf pathb hsh) fs = none →
        hardlink renameOk fs patha pathb hsh =
          { fs := fs, trace := [fs, fs ++ [(tempNameOf pathb hsh, va)], fs],
            err := some FsErr.other }) := by
  constructor
  · unfold hardlink link
    cases hl : os_link fs patha (tempNameOf pathb hsh) with
    | error e =>
      simp only [link_step1]
      intro fs2 hmem
      simp only [List.mem_singleton] at hmem
      subst hmem
      exact Or.inl hpb
    | ok fs1 =>
      obtain ⟨hnone, v, hv, hfs1⟩ := os_link_ok hl
      rw [hpa] at hv
      injection hv with hv
      subst hv
      subst hfs1
      have hu : alookup (tempNameOf pathb hsh) (fs ++ [(tempNameOf pathb hsh, va)]) =
          some va := by
        rw [alookup_append_none hnone]
        simp [alookup]
      have hb1 : alookup pathb (fs ++ [(tempNameOf pathb hsh, va)]) = some vb :=
        alookup_append_some hpb
      simp only [link_step1]
      cases renameOk with
      | false =>
        have hre : os_rename false (fs ++ [(tempNameOf pathb hsh, va)])
            (tempNameOf pathb hsh) pathb = .error .other := rfl
        rw [hre]
        simp only [link_step2]
        have hun : os_unlink (fs ++ [(tempNameOf pathb hsh, va)]) (tempNameOf pathb hsh) =
            .ok (removeFS (fs ++ [(tempNameOf pathb hsh, va)]) (tempNameOf pathb hsh)) := by
          unfold os_unlink
          rw [hu]
        rw [hun]
        simp only [link_step3]
        intro fs2 hmem
        simp only [List.mem_cons, List.mem_singleton, List.not_mem_nil, or_false] at hmem
        rcases hmem with rfl | rfl | rfl
        · exact Or.inl hpb
        · exact Or.inl hb1
        · refine Or.inl ?_
          rw [alookup_removeFS_ne (Ne.symm htmp)]
          exact hb1
      | true =>
        have hre : os_rename true (fs ++ [(tempNameOf pathb hsh, va)])
            (tempNameOf pathb hsh) pathb =
            .ok (setFS (removeFS (fs ++ [(tempNameOf pathb hsh, va)])
              (tempNameOf pathb hsh)) pathb va) := by
          unfold os_rename
          rw [hu]
          rfl
        rw [hre]
        simp only [link_step2]
        intro fs2 hmem
        simp only [List.mem_cons, List.mem_singleton, List.not_mem_nil, or_false] at hmem
        rcases hmem with rfl | rfl | rfl
        · exact Or.inl hpb
        · exact Or.inl hb1
        · exact Or.inr (alookup_setFS_self _ _ _)
  · intro hro hnone
    subst hro
    unfold hardlink link
    have hl : os_link fs patha (tempNameOf pathb hsh) =
        .ok (fs ++ [(tempNameOf pathb hsh, va)]) := by
      unfold os_link
      rw [hnone, hpa]
      rfl
    rw [hl]
    simp only [link_step1]
    have hre : os_rename false (fs ++ [(tempNameOf pathb hsh, va)])
        (tempNameOf pathb hsh) pathb = .error .other := rfl
    rw [hre]
    simp only [link_step2]
    have hu : alookup (tempNameOf pathb hsh) (fs ++ [(tempNameOf pathb hsh, va)]) =
        some va := by
      rw [alookup_append_none hnone]
      simp [alookup]
    have hun : os_unlink (fs ++ [(tempNameOf pathb hsh, va)]) (tempNameOf pathb hsh) =
        .ok (removeFS (fs ++ [(tempNameOf pathb hsh, va)]) (tempNameOf pathb hsh)) := by
      unfold os_unlink
      rw [hu]
    rw [hun]
    simp only [link_step3]
    have hr2 : removeFS (fs ++ [(tempNameOf pathb hsh, va)]) (tempNameOf pathb hsh) = fs := by
      have h1 : removeFS (fs ++ [(tempNameOf pathb hsh, va)]) (tempNameOf pathb hsh) =
          removeFS fs (tempNameOf pathb hsh) ++
          removeFS [(tempNameOf pathb hsh, va)] (tempNameOf pathb hsh) := by
        unfold removeFS
        exact List.filter_append _ _
      have h2 : removeFS [(tempNameOf pathb hsh, va)] (tempNameOf pathb hsh) = [] := by
        unfold removeFS
        simp [List.filter_cons]
      rw [h1, h2, removeFS_of_none hnone, List.append_nil]
    rw [hr2]

/-- Witness for the cleanup-and-order theorem: original "a", duplicate
"d/b", temp name "d/h", rename forced to fail. -/
theorem C8_rename_failure_cleanup_and_order_witness :
    (alookup "d/b" (fsW8 ++ [(tempNameOf "d/b" "h", 1)]) = some 2 ∨
     alookup "d/b" (fsW8 ++ [(tempNameOf "d/b" "h", 1)]) = some 1) ∧
    hardlink false fsW8 "a" "d/b" "h" =
      { fs := fsW8, trace := [fsW8, fsW8 ++ [(tempNameOf "d/b" "h", 1)], fsW8],
        err := some FsErr.other } := by
  have h := C8_rename_failure_cleanup_and_order false fsW8 "a" "d/b" "h" 1 2
    rfl rfl (by decide)
  refine ⟨?_, h.2 rfl rfl⟩
  have h2 := h.2 rfl rfl
  refine h.1 (fsW8 ++ [(tempNameOf "d/b" "h", 1)]) ?_
  rw [h2]
  exact List.mem_cons_of_mem _ (List.mem_cons_self _ _)

/-- Appending to the processed log keeps any recorded occurrence. -/
theorem processed_extend1 {P : List Candidate} {cf : Candidate} {l1 l2 : List Candidate}
    (c : Candidate) (h : P = l1 ++ cf :: l2) : P ++ [c] = l1 ++ cf :: (l2 ++ [c]) := by
  subst h; simp

/-- Appending to the processed log keeps any recorded ordered pair of
occurrences. -/
theorem processed_extend2 {P : List Candidate} {co cd : Candidate} {l1 l2 l3 : List Candidate}
    (c : Candidate) (h : P = l1 ++ co :: l2 ++ cd :: l3) :
    P ++ [c] = l1 ++ co :: l2 ++ cd :: (l3 ++ [c]) := by
  subst h; simp

/-- A recorded occurrence followed by the candidate just appended forms
an ordered pair of occurrences. -/
theorem processed_concat {P : List Candidate} {cf : Candidate} {l1 l2 : List Candidate}
    (c : Candidate) (h : P = l1 ++ cf :: l2) : P ++ [c] = l1 ++ cf :: l2 ++ c :: [] := by
  subst h; simp

/-- Membership after a dict update comes from the new entry or the old
dict (no key-uniqueness needed). -/
theorem mem_dictSet_weak {κ α : Type} [DecidableEq κ] {p : κ × α} {l : List (κ × α)}
    {k : κ} {v : α} (h : p ∈ dictSet l k v) : p = (k, v) ∨ p ∈ l := by
  induction l with
  | nil => simp [dictSet] at h; simp [h]
  | cons q rest ih =>
    obtain ⟨k2, v2⟩ := q
    by_cases hk : k2 = k
    · simp only [dictSet, if_pos hk] at h
      rcases List.mem_cons.mp h with h1 | h1
      · exact Or.inl h1
      · exact Or.inr (List.mem_cons_of_mem _ h1)
    · simp only [dictSet, if_neg hk] at h
      rcases List.mem_cons.mp h with h1 | h1
      · exact Or.inr (by simp [h1])
      · rcases ih h1 with h2 | h2
        · exact Or.inl h2
        · exact Or.inr (List.mem_cons_of_mem _ h2)

/-- When the inode scan of a hashed bucket finds nothing, no stored
value of the dict carries the candidate's inode. -/
theorem any_eq_false_inode {m : List (Nat × FileInfo)} {i : Nat}
    (h : (m.any fun p => p.2.inode == i) = false) :
    ∀ f ∈ m.map Prod.snd, f.inode ≠ i := by
  intro f hf he
  obtain ⟨p, hp, hpf⟩ := List.mem_map.mp hf
  have h2 := (List.any_eq_false).mp h p hp
  apply h2
  rw [hpf]
  exact beq_iff_eq.mpr he

/-- A step that leaves buckets and emitted untouched and appends the
candidate preserves the emitted-triple invariant. -/
theorem InvC10_keep (hashFn : String → Option Nat) (st : DetectState) (c : Candidate)
    (st2 : DetectState) (hbk : st2.buckets = st.buckets) (hem : st2.emitted = st.emitted)
    (hpr : st2.processed = st.processed ++ [c]) (h : InvC10 hashFn st) :
    InvC10 hashFn st2 := by
  refine ⟨?_, ?_⟩
  · intro p hp f hf
    rw [hbk] at hp
    obtain ⟨cf, l1, l2, hsp, hmk, hsz⟩ := h.storedFrom p hp f hf
    exact ⟨cf, l1, l2 ++ [c], by rw [hpr]; exact processed_extend1 c hsp, hmk, hsz⟩
  · intro t ht
    rw [hem] at ht
    obtain ⟨hio, hha, co, cd, l1, l2, l3, hsp, hco, hcd, hsz⟩ := h.emittedOK t ht
    exact ⟨hio, hha, co, cd, l1, l2, l3 ++ [c],
      by rw [hpr]; exact processed_extend2 c hsp, hco, hcd, hsz⟩

/-- One candidate step preserves the emitted-triple invariant, whether
it succeeds or aborts. -/
theorem InvC10_step (opts : Options) (hashFn : String → Option Nat)
    (st : DetectState) (c : Candidate) (h : InvC10 hashFn st) :
    InvC10 hashFn ((find_dupes_step opts hashFn st c).state) := by
  refine find_dupes_step_cases opts hashFn st c (fun r => InvC10 hashFn (r.state))
    ?_ ?_ ?_ ?_ ?_ ?_ ?_ ?_ ?_ ?_ ?_ ?_
  · intro _; exact InvC10_keep hashFn st c _ rfl rfl rfl h
  · intro _ _; exact InvC10_keep hashFn st c _ rfl rfl rfl h
  · intro _ _ h3
    refine ⟨?_, ?_⟩
    · intro p hp f hf
      rcases mem_dictSet_weak hp with h4 | h4
      · subst h4
        have hfe : f = mkInfo c := by simpa [storedInfos] using hf
        exact ⟨c, st.processed, [], rfl, hfe.symm, rfl⟩
      · obtain ⟨cf, l1, l2, hsp, hmk, hsz⟩ := h.storedFrom p h4 f hf
        exact ⟨cf, l1, l2 ++ [c], processed_extend1 c hsp, hmk, hsz⟩
    · intro t ht
      obtain ⟨hio, hha, co, cd, l1, l2, l3, hsp, hco, hcd, hsz⟩ := h.emittedOK t ht
      exact ⟨hio, hha, co, cd, l1, l2, l3 ++ [c], processed_extend2 c hsp, hco, hcd, hsz⟩
  · intro _ _ _ _ _; exact InvC10_keep hashFn st c _ rfl rfl rfl h
  · intro _ _ _ _ _ _; exact InvC10_keep hashFn st c _ rfl rfl rfl h
  · intro m th orig _ _ hb hany hh ho
    refine ⟨?_, ?_⟩
    · intro p hp f hf
      obtain ⟨cf, l1, l2, hsp, hmk, hsz⟩ := h.storedFrom p hp f hf
      exact ⟨cf, l1, l2 ++ [c], processed_extend1 c hsp, hmk, hsz⟩
    · intro t ht
      rcases List.mem_append.mp ht with h4 | h4
      · obtain ⟨hio, hha, co, cd, l1, l2, l3, hsp, hco, hcd, hsz⟩ := h.emittedOK t h4
        exact ⟨hio, hha, co, cd, l1, l2, l3 ++ [c], processed_extend2 c hsp, hco, hcd, hsz⟩
      · have h5 : t = (orig, mkInfo c, th) := by simpa using h4
        subst h5
        have horig : orig ∈ m.map Prod.snd := alookup_mem_snd ho
        refine ⟨any_eq_false_inode hany orig horig, hh, ?_⟩
        obtain ⟨cf, l1, l2, hsp, hmk, hsz⟩ := h.storedFrom (c.st_size, BucketVal.dict m)
          (alookup_some_mem hb) orig (by simpa [storedInfos] using horig)
        exact ⟨cf, c, l1, l2, [], processed_concat c hsp, hmk, rfl, hsz⟩
  · intro m th _ _ hb hany hh ho
    refine ⟨?_, ?_⟩
    · intro p hp f hf
      rcases mem_dictSet_weak hp with h4 | h4
      · subst h4
        have hf2 : f ∈ m.map Prod.snd ++ [mkInfo c] := by
          simpa [storedInfos] using hf
        rcases List.mem_append.mp hf2 with h5 | h5
        · obtain ⟨cf, l1, l2, hsp, hmk, hsz⟩ := h.storedFrom (c.st_size, BucketVal.dict m)
            (alookup_some_mem hb) f (by simpa [storedInfos] using h5)
          exact ⟨cf, l1, l2 ++ [c], processed_extend1 c hsp, hmk, hsz⟩
        · have hfe : f = mkInfo c := by simpa using h5
          exact ⟨c, st.processed, [], rfl, hfe.symm, rfl⟩
      · obtain ⟨cf, l1, l2, hsp, hmk, hsz⟩ := h.storedFrom p h4 f hf
        exact ⟨cf, l1, l2 ++ [c], processed_extend1 c hsp, hmk, hsz⟩
    · intro t ht
      obtain ⟨hio, hha, co, cd, l1, l2, l3, hsp, hco, hcd, hsz⟩ := h.emittedOK t ht
      exact ⟨hio, hha, co, cd, l1, l2, l3 ++ [c], processed_extend2 c hsp, hco, hcd, hsz⟩
  · intro _ _ _ _ _; exact InvC10_keep hashFn st c _ rfl rfl rfl h
  · intro _ _ _ _ _ _; exact InvC10_keep hashFn st c _ rfl rfl rfl h
  · intro _ _ _ _ _ _ _ _; exact InvC10_keep hashFn st c _ rfl rfl rfl h
  · intro e th eh _ _ hb hie hh he2 heq
    refine ⟨?_, ?_⟩
    · intro p hp f hf
      rcases mem_dictSet_weak hp with h4 | h4
      · subst h4
        have hfe : f = e := by simpa [storedInfos] using hf
        obtain ⟨cf, l1, l2, hsp, hmk, hsz⟩ := h.storedFrom (c.st_size, BucketVal.info e)
          (alookup_some_mem hb) e (by simp [storedInfos])
        exact ⟨cf, l1, l2 ++ [c], processed_extend1 c hsp, by rw [hmk, hfe], hsz⟩
      · obtain ⟨cf, l1, l2, hsp, hmk, hsz⟩ := h.storedFrom p h4 f hf
        exact ⟨cf, l1, l2 ++ [c], processed_extend1 c hsp, hmk, hsz⟩
    · intro t ht
      rcases List.mem_append.mp ht with h4 | h4
      · obtain ⟨hio, hha, co, cd, l1, l2, l3, hsp, hco, hcd, hsz⟩ := h.emittedOK t h4
        exact ⟨hio, hha, co, cd, l1, l2, l3 ++ [c], processed_extend2 c hsp, hco, hcd, hsz⟩
      · have h5 : t = (e, mkInfo c, th) := by simpa using h4
        subst h5
        refine ⟨hie, hh, ?_⟩
        obtain ⟨cf, l1, l2, hsp, hmk, hsz⟩ := h.storedFrom (c.st_size, BucketVal.info e)
          (alookup_some_mem hb) e (by simp [storedInfos])
        exact ⟨cf, c, l1, l2, [], processed_concat c hsp, hmk, rfl, hsz⟩
  · intro e th eh _ _ hb hie hh he2 heq
    refine ⟨?_, ?_⟩
    · intro p hp f hf
      rcases mem_dictSet_weak hp with h4 | h4
      · subst h4
        have hf2 : f = e ∨ f = mkInfo c := by simpa [storedInfos] using hf
        rcases hf2 with hfe | hfe
        · obtain ⟨cf, l1, l2, hsp, hmk, hsz⟩ := h.storedFrom (c.st_size, BucketVal.info e)
            (alookup_some_mem hb) e (by simp [storedInfos])
          exact ⟨cf, l1, l2 ++ [c], processed_extend1 c hsp, by rw [hmk, hfe], hsz⟩
        · exact ⟨c, st.processed, [], rfl, hfe.symm, rfl⟩
      · obtain ⟨cf, l1, l2, hsp, hmk, hsz⟩ := h.storedFrom p h4 f hf
        exact ⟨cf, l1, l2 ++ [c], processed_extend1 c hsp, hmk, hsz⟩
    · intro t ht
      obtain ⟨hio, hha, co, cd, l1, l2, l3, hsp, hco, hcd, hsz⟩ := h.emittedOK t ht
      exact ⟨hio, hha, co, cd, l1, l2, l3 ++ [c], processed_extend2 c hsp, hco, hcd, hsz⟩

/-- C10: every emitted triple names an original and a duplicate with
distinct inode numbers, carries the duplicate's digest as read at
hashing time, and the original was consumed strictly earlier than the
duplicate in candidate order, both with the same stat size; the
consumed candidates are an order-preserving prefix of the input. -/
theorem C10_emitted_pair_invariants (opts : Options) (hashFn : String → Option Nat)
    (cs : List Candidate) (st2 : DetectState) (ab : Bool)
    (hrun : find_dupes opts hashFn initState cs = (st2, ab)) :
    (∃ suf, cs = st2.processed ++ suf) ∧
    ∀ t ∈ st2.emitted,
      t.1.inode ≠ t.2.1.inode ∧
      hashFn t.2.1.name = some t.2.2 ∧
      ∃ co cd l1 l2 l3, st2.processed = l1 ++ co :: l2 ++ cd :: l3 ∧
        mkInfo co = t.1 ∧ mkInfo cd = t.2.1 ∧ co.st_size = cd.st_size := by
  constructor
  · obtain ⟨pre, suf, h1, h2⟩ := find_dupes_processed opts hashFn cs initState
    rw [hrun] at h2
    refine ⟨suf, ?_⟩
    rw [h1, h2]
    rfl
  · have hinv : InvC10 hashFn st2 := by
      refine find_dupes_inv opts hashFn (InvC10 hashFn) ?_ ?_ cs initState st2 ab ?_ hrun
      · intro sta c stb hstep hP
        have := InvC10_step opts hashFn sta c hP
        rw [hstep] at this
        exact this
      · intro sta c stb hstep hP
        have := InvC10_step opts hashFn sta c hP
        rw [hstep] at this
        exact this
      · refine ⟨?_, ?_⟩
        · intro p hp; simp [initState] at hp
        · intro t ht; simp [initState] at ht
    exact hinv.emittedOK

/-- Witness for the emitted-triple theorem at the cross-device pair run. -/
theorem C10_emitted_pair_invariants_witness :
    (∃ suf, [c1a, c1b] =
      (find_dupes defaultOptions hashAll7 initState [c1a, c1b]).1.processed ++ suf) ∧
    (({ name := "a", dev := 1, inode := 1 } : FileInfo),
     ({ name := "b", dev := 2, inode := 2 } : FileInfo), (7 : Nat)).1.inode ≠
      (({ name := "a", dev := 1, inode := 1 } : FileInfo),
       ({ name := "b", dev := 2, inode := 2 } : FileInfo), (7 : Nat)).2.1.inode ∧
    hashAll7 (({ name := "a", dev := 1, inode := 1 } : FileInfo),
      ({ name := "b", dev := 2, inode := 2 } : FileInfo), (7 : Nat)).2.1.name =
      some (({ name := "a", dev := 1, inode := 1 } : FileInfo),
        ({ name := "b", dev := 2, inode := 2 } : FileInfo), (7 : Nat)).2.2 ∧
    ∃ co cd l1 l2 l3,
      (find_dupes defaultOptions hashAll7 initState [c1a, c1b]).1.processed =
        l1 ++ co :: l2 ++ cd :: l3 ∧
      mkInfo co = (({ name := "a", dev := 1, inode := 1 } : FileInfo),
        ({ name := "b", dev := 2, inode := 2 } : FileInfo), (7 : Nat)).1 ∧
      mkInfo cd = (({ name := "a", dev := 1, inode := 1 } : FileInfo),
        ({ name := "b", dev := 2, inode := 2 } : FileInfo), (7 : Nat)).2.1 ∧
      co.st_size = cd.st_size := by
  have h := C10_emitted_pair_invariants defaultOptions hashAll7 [c1a, c1b]
    (find_dupes defaultOptions hashAll7 initState [c1a, c1b]).1
    (find_dupes defaultOptions hashAll7 initState [c1a, c1b]).2 rfl
  exact ⟨h.1, h.2 _ (by decide)⟩

/-- Counting a pair in a log extended by one event. -/
theorem count_pair_snoc (l : List (Nat × Nat)) (x a : Nat × Nat) :
    (l ++ [x]).count a = l.count a + if a = x then 1 else 0 := by
  rw [List.count_append]
  congr 1
  rw [List.count_cons, List.count_nil]
  by_cases h : a = x
  · simp [h]
  · simp [h]
    intro he
    exact absurd he.symm h

/-- Counting a pair in a log extended by two events. -/
theorem count_pair_snoc2 (l : List (Nat × Nat)) (x y a : Nat × Nat) :
    (l ++ [x, y]).count a = l.count a + ((if a = x then 1 else 0) + if a = y then 1 else 0) := by
  have h1 : (l ++ [x, y]) = (l ++ [x]) ++ [y] := by simp
  rw [h1, count_pair_snoc, count_pair_snoc]
  omega

/-- Counting matching duplicates in an emitted log extended by one
triple. -/
theorem countDup_snoc (l : List (FileInfo × FileInfo × Nat)) (t : FileInfo × FileInfo × Nat)
    (d i : Nat) :
    (List.filter (fun t2 => t2.2.1.dev == d && t2.2.1.inode == i) (l ++ [t])).length =
    (List.filter (fun t2 => t2.2.1.dev == d && t2.2.1.inode == i) l).length +
      if t.2.1.dev = d ∧ t.2.1.inode = i then 1 else 0 := by
  rw [List.filter_append, List.length_append]
  congr 1
  rw [List.filter_cons]
  by_cases h : t.2.1.dev = d ∧ t.2.1.inode = i
  · rw [if_pos (by simp [h.1, h.2])]
    simp [h]
  · rw [if_neg ?_, if_neg h]
    · simp
    · simp only [Bool.and_eq_true, beq_iff_eq]
      exact fun hx => h hx

/-- What it means for a `(device, inode)` to be stored somewhere. -/
theorem stored_true_iff {st : DetectState} {d i : Nat} :
    stored st d i = true ↔
      ∃ p ∈ st.buckets, ∃ f ∈ storedInfos p.2, f.dev = d ∧ f.inode = i := by
  unfold stored storedIn
  rw [List.any_eq_true]
  constructor
  · rintro ⟨p, hp, h2⟩
    rw [List.any_eq_true] at h2
    obtain ⟨f, hf, h3⟩ := h2
    rw [Bool.and_eq_true, beq_iff_eq, beq_iff_eq] at h3
    exact ⟨p, hp, f, hf, h3⟩
  · rintro ⟨p, hp, f, hf, h3, h4⟩
    refine ⟨p, hp, ?_⟩
    rw [List.any_eq_true]
    refine ⟨f, hf, ?_⟩
    rw [Bool.and_eq_true, beq_iff_eq, beq_iff_eq]
    exact ⟨h3, h4⟩

/-- A `(device, inode)` not stored anywhere is in particular absent from
every individual bucket. -/
theorem stored_false_elim {st : DetectState} {d i : Nat} (hs : stored st d i = false)
    {p : Nat × BucketVal} (hp : p ∈ st.buckets) {f : FileInfo} (hf : f ∈ storedInfos p.2)
    (hd : f.dev = d) (hi : f.inode = i) : False := by
  have : stored st d i = true := stored_true_iff.mpr ⟨p, hp, f, hf, hd, hi⟩
  rw [hs] at this
  cases this

/-- A step that changes none of buckets, hashed and emitted preserves
the hash-count invariant. -/
theorem InvC4_keep (sz : Nat → Nat → Nat) (st st2 : DetectState)
    (hbk : st2.buckets = st.buckets) (hem : st2.emitted = st.emitted)
    (hha : st2.hashed = st.hashed) (h : InvC4 sz st) : InvC4 sz st2 := by
  have hst : stored st2 = stored st := by unfold stored; rw [hbk]
  refine ⟨?_, ?_, ?_, ?_, ?_, ?_⟩
  · rw [hbk]; exact h.nodup
  · intro p hp f hf; rw [hbk] at hp; exact h.sizes p hp f hf
  · intro p hp e hpe
    rw [hbk] at hp
    show st2.hashed.count (e.dev, e.inode) = 0
    rw [hha]
    exact h.fresh p hp e hpe
  · intro d i ha
    rw [hbk] at ha
    show st2.hashed.count (d, i) = 0
    rw [hha]
    exact h.absent d i ha
  · intro d i hs
    rw [hst] at hs
    show st2.hashed.count (d, i) ≤
      (List.filter (fun t2 => t2.2.1.dev == d && t2.2.1.inode == i) st2.emitted).length
    rw [hha, hem]
    exact h.bound1 d i hs
  · intro d i
    show st2.hashed.count (d, i) ≤
      (List.filter (fun t2 => t2.2.1.dev == d && t2.2.1.inode == i) st2.emitted).length + 1
    rw [hha, hem]
    exact h.bound2 d i

/-- The candidate's `(device, inode)` is stored nowhere when its size
bucket is a dict whose inode scan found nothing. -/
theorem stored_false_of_dict_scan (sz : Nat → Nat → Nat) (st : DetectState) (c : Candidate)
    (m : List (Nat × FileInfo))
    (hnd : (st.buckets.map Prod.fst).Nodup)
    (hsizes : ∀ p ∈ st.buckets, ∀ f ∈ storedInfos p.2, sz f.dev f.inode = p.1)
    (hc : c.st_size = sz c.st_dev c.st_ino)
    (hb : alookup c.st_size st.buckets = some (BucketVal.dict m))
    (hany : (m.any fun p => p.2.inode == c.st_ino) = false) :
    stored st c.st_dev c.st_ino = false := by
  cases hx : stored st c.st_dev c.st_ino
  · rfl
  · exfalso
    obtain ⟨p, hp, f, hf, hd, hi⟩ := stored_true_iff.mp hx
    have hp1 : p.1 = c.st_size := by
      rw [hc, ← hd, ← hi]
      exact (hsizes p hp f hf).symm
    have hlook : alookup p.1 st.buckets = some p.2 := mem_alookup_nodup hnd hp
    rw [hp1, hb] at hlook
    injection hlook with hlook
    rw [← hlook] at hf
    have hfm : f ∈ m.map Prod.snd := by simpa [storedInfos] using hf
    exact any_eq_false_inode hany f hfm hi

/-- The candidate's `(device, inode)` is stored nowhere when its size
bucket holds a single unhashed file of a different inode. -/
theorem stored_false_of_info (sz : Nat → Nat → Nat) (st : DetectState) (c : Candidate)
    (e : FileInfo)
    (hnd : (st.buckets.map Prod.fst).Nodup)
    (hsizes : ∀ p ∈ st.buckets, ∀ f ∈ storedInfos p.2, sz f.dev f.inode = p.1)
    (hc : c.st_size = sz c.st_dev c.st_ino)
    (hb : alookup c.st_size st.buckets = some (BucketVal.info e))
    (hie : e.inode ≠ c.st_ino) :
    stored st c.st_dev c.st_ino = false := by
  cases hx : stored st c.st_dev c.st_ino
  · rfl
  · exfalso
    obtain ⟨p, hp, f, hf, hd, hi⟩ := stored_true_iff.mp hx
    have hp1 : p.1 = c.st_size := by
      rw [hc, ← hd, ← hi]
      exact (hsizes p hp f hf).symm
    have hlook : alookup p.1 st.buckets = some p.2 := mem_alookup_nodup hnd hp
    rw [hp1, hb] at hlook
    injection hlook with hlook
    rw [← hlook] at hf
    have hfe : f = e := by simpa [storedInfos] using hf
    rw [hfe] at hi
    exact hie hi

/-- Replacing a bucket by one whose stored values include the old ones
keeps every stored `(device, inode)` stored. -/
theorem stored_buckets_mono (bl : List (Nat × BucketVal)) (k : Nat) (bOld bNew : BucketVal)
    (hnd : (bl.map Prod.fst).Nodup)
    (hlook : alookup k bl = some bOld)
    (hsub : ∀ f ∈ storedInfos bOld, f ∈ storedInfos bNew)
    (d i : Nat)
    (hx : (bl.any fun p => storedIn p.2 d i) = true) :
    ((dictSet bl k bNew).any fun p => storedIn p.2 d i) = true := by
  rw [List.any_eq_true] at hx
  obtain ⟨p, hp, hsi⟩ := hx
  by_cases hk : p.1 = k
  · have hl2 : alookup p.1 bl = some p.2 := mem_alookup_nodup hnd hp
    rw [hk, hlook] at hl2
    injection hl2 with hl2
    rw [List.any_eq_true]
    refine ⟨(k, bNew), dictSet_self_mem bl k bNew, ?_⟩
    unfold storedIn at hsi ⊢
    rw [List.any_eq_true] at hsi ⊢
    obtain ⟨f, hf, hpf⟩ := hsi
    rw [← hl2] at hf
    exact ⟨f, hsub f hf, hpf⟩
  · rw [List.any_eq_true]
    exact ⟨p, mem_dictSet_of_ne hp hk, hsi⟩

/-- First file of a new size: storing the bare `FileInfo` preserves the
hash-count invariant. -/
theorem InvC4_new (sz : Nat → Nat → Nat) (st : DetectState) (c : Candidate)
    (hc : c.st_size = sz c.st_dev c.st_ino)
    (hb : alookup c.st_size st.buckets = none)
    (h : InvC4 sz st) :
    InvC4 sz { st with
               processed := st.processed ++ [c],
               buckets := dictSet st.buckets c.st_size (BucketVal.info (mkInfo c)) } := by
  have hmono : ∀ d i, (st.buckets.any fun p => storedIn p.2 d i) = true →
      ((dictSet st.buckets c.st_size (BucketVal.info (mkInfo c))).any
        fun p => storedIn p.2 d i) = true := by
    intro d i hx2
    rw [List.any_eq_true] at hx2
    obtain ⟨p, hp, hsi⟩ := hx2
    have hne : p.1 ≠ c.st_size := by
      intro he
      exact (alookup_none_iff.mp hb) (he ▸ List.mem_map.mpr ⟨p, hp, rfl⟩)
    rw [List.any_eq_true]
    exact ⟨p, mem_dictSet_of_ne hp hne, hsi⟩
  refine ⟨?_, ?_, ?_, ?_, ?_, ?_⟩
  · exact dictSet_nodup h.nodup
  · intro p hp f hf
    rcases mem_dictSet h.nodup hp with h4 | ⟨h4, h5⟩
    · subst h4
      have hfe : f = mkInfo c := by simpa [storedInfos] using hf
      rw [hfe]
      exact hc.symm
    · exact h.sizes p h4 f hf
  · intro p hp e hpe
    show st.hashed.count (e.dev, e.inode) = 0
    rcases mem_dictSet h.nodup hp with h4 | ⟨h4, h5⟩
    · subst h4
      injection hpe with hpe
      rw [← hpe]
      exact h.absent c.st_dev c.st_ino (by rw [← hc]; exact hb)
    · exact h.fresh p h4 e hpe
  · intro d i ha
    show st.hashed.count (d, i) = 0
    by_cases hsz : sz d i = c.st_size
    · rw [hsz, alookup_dictSet_self] at ha
      cases ha
    · rw [alookup_dictSet_ne hsz] at ha
      exact h.absent d i ha
  · intro d i hs
    have hs2 : stored st d i = false := by
      cases hx : stored st d i
      · rfl
      · exfalso
        have hAB : stored { st with
            processed := st.processed ++ [c],
            buckets := dictSet st.buckets c.st_size (BucketVal.info (mkInfo c)) } d i = true :=
          hmono d i hx
        rw [hs] at hAB
        cases hAB
    exact h.bound1 d i hs2
  · intro d i
    exact h.bound2 d i

/-- Hashed-bucket hit: hashing the candidate once and emitting it as a
duplicate preserves the hash-count invariant. -/
theorem InvC4_dictemit (sz : Nat → Nat → Nat) (st : DetectState) (c : Candidate)
    (m : List (Nat × FileInfo)) (th : Nat) (orig : FileInfo)
    (hc : c.st_size = sz c.st_dev c.st_ino)
    (hb : alookup c.st_size st.buckets = some (BucketVal.dict m))
    (hany : (m.any fun p => p.2.inode == c.st_ino) = false)
    (ho : alookup th m = some orig)
    (h : InvC4 sz st) :
    InvC4 sz { st with
               processed := st.processed ++ [c],
               hashed := st.hashed ++ [(c.st_dev, c.st_ino)],
               emitted := st.emitted ++ [(orig, mkInfo c, th)] } := by
  refine ⟨h.nodup, ?_, ?_, ?_, ?_, ?_⟩
  · intro p hp f hf
    exact h.sizes p hp f hf
  · intro p hp e hpe
    show (st.hashed ++ [(c.st_dev, c.st_ino)]).count (e.dev, e.inode) = 0
    rw [count_pair_snoc]
    have hne : (e.dev, e.inode) ≠ (c.st_dev, c.st_ino) := by
      intro he
      injection he with he1 he2
      have hsz2 : sz e.dev e.inode = p.1 :=
        h.sizes p hp e (by rw [hpe]; simp [storedInfos])
      have hp1 : p.1 = c.st_size := by
        rw [hc, ← he1, ← he2]
        exact hsz2.symm
      have hlook : alookup p.1 st.buckets = some p.2 := mem_alookup_nodup h.nodup hp
      rw [hp1, hb] at hlook
      injection hlook with hlook
      rw [← hlook] at hpe
      cases hpe
    have h0 : st.hashed.count (e.dev, e.inode) = 0 := h.fresh p hp e hpe
    rw [if_neg hne, h0]
  · intro d i ha
    show (st.hashed ++ [(c.st_dev, c.st_ino)]).count (d, i) = 0
    rw [count_pair_snoc]
    have hne : (d, i) ≠ (c.st_dev, c.st_ino) := by
      intro he
      injection he with he1 he2
      rw [he1, he2, ← hc, hb] at ha
      cases ha
    have h0 : st.hashed.count (d, i) = 0 := h.absent d i ha
    rw [if_neg hne, h0]
  · intro d i hs
    have hs2 : stored st d i = false := hs
    show (st.hashed ++ [(c.st_dev, c.st_ino)]).count (d, i) ≤
      (List.filter (fun t2 => t2.2.1.dev == d && t2.2.1.inode == i)
        (st.emitted ++ [(orig, mkInfo c, th)])).length
    rw [count_pair_snoc, countDup_snoc]
    have hB1 : st.hashed.count (d, i) ≤
        (List.filter (fun t2 => t2.2.1.dev == d && t2.2.1.inode == i) st.emitted).length :=
      h.bound1 d i hs2
    by_cases hdi : (d, i) = (c.st_dev, c.st_ino)
    · have he1 : d = c.st_dev := congrArg Prod.fst hdi
      have he2 : i = c.st_ino := congrArg Prod.snd hdi
      rw [if_pos hdi, if_pos (show (mkInfo c).dev = d ∧ (mkInfo c).inode = i from
        ⟨he1.symm, he2.symm⟩)]
      omega
    · rw [if_neg hdi, if_neg (show ¬((mkInfo c).dev = d ∧ (mkInfo c).inode = i) from by
        rintro ⟨x1, x2⟩
        refine hdi ?_
        have y1 : c.st_dev = d := x1
        have y2 : c.st_ino = i := x2
        rw [y1, y2])]
      omega
  · intro d i
    show (st.hashed ++ [(c.st_dev, c.st_ino)]).count (d, i) ≤
      (List.filter (fun t2 => t2.2.1.dev == d && t2.2.1.inode == i)
        (st.emitted ++ [(orig, mkInfo c, th)])).length + 1
    rw [count_pair_snoc, countDup_snoc]
    have hB2 : st.hashed.count (d, i) ≤
        (List.filter (fun t2 => t2.2.1.dev == d && t2.2.1.inode == i) st.emitted).length + 1 :=
      h.bound2 d i
    by_cases hdi : (d, i) = (c.st_dev, c.st_ino)
    · have he1 : d = c.st_dev := congrArg Prod.fst hdi
      have he2 : i = c.st_ino := congrArg Prod.snd hdi
      rw [if_pos hdi, if_pos (show (mkInfo c).dev = d ∧ (mkInfo c).inode = i from
        ⟨he1.symm, he2.symm⟩)]
      omega
    · rw [if_neg hdi, if_neg (show ¬((mkInfo c).dev = d ∧ (mkInfo c).inode = i) from by
        rintro ⟨x1, x2⟩
        refine hdi ?_
        have y1 : c.st_dev = d := x1
        have y2 : c.st_ino = i := x2
        rw [y1, y2])]
      omega

/-- Hashed-bucket miss: hashing the candidate once and inserting it
under its own digest preserves the hash-count invariant. -/
theorem InvC4_dictins (sz : Nat → Nat → Nat) (st : DetectState) (c : Candidate)
    (m : List (Nat × FileInfo)) (th : Nat)
    (hc : c.st_size = sz c.st_dev c.st_ino)
    (hb : alookup c.st_size st.buckets = some (BucketVal.dict m))
    (hany : (m.any fun p => p.2.inode == c.st_ino) = false)
    (h : InvC4 sz st) :
    InvC4 sz { st with
               processed := st.processed ++ [c],
               hashed := st.hashed ++ [(c.st_dev, c.st_ino)],
               buckets := dictSet st.buckets c.st_size
                 (BucketVal.dict (m ++ [(th, mkInfo c)])) } := by
  have hsub : ∀ f ∈ storedInfos (BucketVal.dict m),
      f ∈ storedInfos (BucketVal.dict (m ++ [(th, mkInfo c)])) := by
    intro f hfm
    simp only [storedInfos, List.map_append] at hfm ⊢
    exact List.mem_append_left _ hfm
  refine ⟨dictSet_nodup h.nodup, ?_, ?_, ?_, ?_, ?_⟩
  · intro p hp f hf
    rcases mem_dictSet h.nodup hp with h4 | ⟨h4, h5⟩
    · subst h4
      have hf2 : f ∈ m.map Prod.snd ++ [mkInfo c] := by
        simpa [storedInfos] using hf
      rcases List.mem_append.mp hf2 with h6 | h6
      · exact h.sizes (c.st_size, BucketVal.dict m) (alookup_some_mem hb) f
          (by simpa [storedInfos] using h6)
      · have hfe : f = mkInfo c := by simpa using h6
        rw [hfe]
        exact hc.symm
    · exact h.sizes p h4 f hf
  · intro p hp e hpe
    show (st.hashed ++ [(c.st_dev, c.st_ino)]).count (e.dev, e.inode) = 0
    rw [count_pair_snoc]
    rcases mem_dictSet h.nodup hp with h4 | ⟨h4, h5⟩
    · subst h4
      cases hpe
    · have hne : (e.dev, e.inode) ≠ (c.st_dev, c.st_ino) := by
        intro he
        have he1 : e.dev = c.st_dev := congrArg Prod.fst he
        have he2 : e.inode = c.st_ino := congrArg Prod.snd he
        have hsz2 : sz e.dev e.inode = p.1 :=
          h.sizes p h4 e (by rw [hpe]; simp [storedInfos])
        rw [he1, he2, ← hc] at hsz2
        exact h5 hsz2.symm
      have h0 : st.hashed.count (e.dev, e.inode) = 0 := h.fresh p h4 e hpe
      rw [if_neg hne, h0]
  · intro d i ha
    show (st.hashed ++ [(c.st_dev, c.st_ino)]).count (d, i) = 0
    rw [count_pair_snoc]
    by_cases hsz : sz d i = c.st_size
    · rw [hsz, alookup_dictSet_self] at ha
      cases ha
    · rw [alookup_dictSet_ne hsz] at ha
      have hne : (d, i) ≠ (c.st_dev, c.st_ino) := by
        intro he
        have he1 : d = c.st_dev := congrArg Prod.fst he
        have he2 : i = c.st_ino := congrArg Prod.snd he
        rw [he1, he2, ← hc] at hsz
        exact hsz rfl
      have h0 : st.hashed.count (d, i) = 0 := h.absent d i ha
      rw [if_neg hne, h0]
  · intro d i hs
    by_cases hdi : (d, i) = (c.st_dev, c.st_ino)
    · exfalso
      have he1 : d = c.st_dev := congrArg Prod.fst hdi
      have he2 : i = c.st_ino := congrArg Prod.snd hdi
      have hT : stored { st with
          processed := st.processed ++ [c],
          hashed := st.hashed ++ [(c.st_dev, c.st_ino)],
          buckets := dictSet st.buckets c.st_size
            (BucketVal.dict (m ++ [(th, mkInfo c)])) } d i = true := by
        refine stored_true_iff.mpr ⟨(c.st_size, BucketVal.dict (m ++ [(th, mkInfo c)])),
          dictSet_self_mem _ _ _, mkInfo c, ?_, he1.symm, he2.symm⟩
        simp [storedInfos]
      rw [hs] at hT
      cases hT
    · have hs2 : stored st d i = false := by
        cases hx : stored st d i
        · rfl
        · exfalso
          have hx2 : (st.buckets.any fun p => storedIn p.2 d i) = true := hx
          have hA := stored_buckets_mono st.buckets c.st_size (BucketVal.dict m)
            (BucketVal.dict (m ++ [(th, mkInfo c)])) h.nodup hb hsub d i hx2
          have hs3 : ((dictSet st.buckets c.st_size
              (BucketVal.dict (m ++ [(th, mkInfo c)]))).any
              fun p => storedIn p.2 d i) = false := hs
          rw [hA] at hs3
          cases hs3
      show (st.hashed ++ [(c.st_dev, c.st_ino)]).count (d, i) ≤
        (List.filter (fun t2 => t2.2.1.dev == d && t2.2.1.inode == i) st.emitted).length
      rw [count_pair_snoc, if_neg hdi]
      have hB1 : st.hashed.count (d, i) ≤
          (List.filter (fun t2 => t2.2.1.dev == d && t2.2.1.inode == i) st.emitted).length :=
        h.bound1 d i hs2
      omega
  · intro d i
    show (st.hashed ++ [(c.st_dev, c.st_ino)]).count (d, i) ≤
      (List.filter (fun t2 => t2.2.1.dev == d && t2.2.1.inode == i) st.emitted).length + 1
    rw [count_pair_snoc]
    by_cases hdi : (d, i) = (c.st_dev, c.st_ino)
    · have he1 : d = c.st_dev := congrArg Prod.fst hdi
      have he2 : i = c.st_ino := congrArg Prod.snd hdi
      subst he1
      subst he2
      rw [if_pos rfl]
      have hsf : stored st c.st_dev c.st_ino = false :=
        stored_false_of_dict_scan sz st c m h.nodup h.sizes hc hb hany
      have hB1 : st.hashed.count (c.st_dev, c.st_ino) ≤
          (List.filter (fun t2 => t2.2.1.dev == c.st_dev && t2.2.1.inode == c.st_ino)
            st.emitted).length :=
        h.bound1 c.st_dev c.st_ino hsf
      omega
    · rw [if_neg hdi]
      have hB2 : st.hashed.count (d, i) ≤
          (List.filter (fun t2 => t2.2.1.dev == d && t2.2.1.inode == i) st.emitted).length + 1 :=
        h.bound2 d i
      omega

/-- First size collision with equal digests: hashing both files once and
emitting the pair preserves the hash-count invariant. -/
theorem InvC4_infoemit (sz : Nat → Nat → Nat) (st : DetectState) (c : Candidate)
    (e : FileInfo) (th eh : Nat)
    (hc : c.st_size = sz c.st_dev c.st_ino)
    (hb : alookup c.st_size st.buckets = some (BucketVal.info e))
    (hie : e.inode ≠ c.st_ino)
    (h : InvC4 sz st) :
    InvC4 sz { st with
               processed := st.processed ++ [c],
               hashed := st.hashed ++ [(c.st_dev, c.st_ino), (e.dev, e.inode)],
               buckets := dictSet st.buckets c.st_size (BucketVal.dict [(eh, e)]),
               emitted := st.emitted ++ [(e, mkInfo c, th)] } := by
  have pmem : (c.st_size, BucketVal.info e) ∈ st.buckets := alookup_some_mem hb
  have hsze : sz e.dev e.inode = c.st_size :=
    h.sizes (c.st_size, BucketVal.info e) pmem e (by simp [storedInfos])
  have hfre : st.hashed.count (e.dev, e.inode) = 0 :=
    h.fresh (c.st_size, BucketVal.info e) pmem e rfl
  have hen : (e.dev, e.inode) ≠ (c.st_dev, c.st_ino) := by
    intro he
    exact hie (congrArg Prod.snd he)
  have hsf : stored st c.st_dev c.st_ino = false :=
    stored_false_of_info sz st c e h.nodup h.sizes hc hb hie
  have hsub : ∀ f ∈ storedInfos (BucketVal.info e),
      f ∈ storedInfos (BucketVal.dict [(eh, e)]) := by
    intro f hfm
    simp [storedInfos] at hfm ⊢
    exact hfm
  refine ⟨dictSet_nodup h.nodup, ?_, ?_, ?_, ?_, ?_⟩
  · intro p hp f hf
    rcases mem_dictSet h.nodup hp with h4 | ⟨h4, h5⟩
    · subst h4
      have hfe : f = e := by simpa [storedInfos] using hf
      rw [hfe]
      exact hsze
    · exact h.sizes p h4 f hf
  · intro p hp e2 hpe
    show (st.hashed ++ [(c.st_dev, c.st_ino), (e.dev, e.inode)]).count (e2.dev, e2.inode) = 0
    rw [count_pair_snoc2]
    rcases mem_dictSet h.nodup hp with h4 | ⟨h4, h5⟩
    · subst h4
      cases hpe
    · have hsz2 : sz e2.dev e2.inode = p.1 :=
        h.sizes p h4 e2 (by rw [hpe]; simp [storedInfos])
      have hne1 : (e2.dev, e2.inode) ≠ (c.st_dev, c.st_ino) := by
        intro he
        have he1 : e2.dev = c.st_dev := congrArg Prod.fst he
        have he2 : e2.inode = c.st_ino := congrArg Prod.snd he
        rw [he1, he2, ← hc] at hsz2
        exact h5 hsz2.symm
      have hne2 : (e2.dev, e2.inode) ≠ (e.dev, e.inode) := by
        intro he
        have he1 : e2.dev = e.dev := congrArg Prod.fst he
        have he2 : e2.inode = e.inode := congrArg Prod.snd he
        rw [he1, he2, hsze] at hsz2
        exact h5 hsz2.symm
      have h0 : st.hashed.count (e2.dev, e2.inode) = 0 := h.fresh p h4 e2 hpe
      rw [if_neg hne1, if_neg hne2, h0]
  · intro d i ha
    show (st.hashed ++ [(c.st_dev, c.st_ino), (e.dev, e.inode)]).count (d, i) = 0
    rw [count_pair_snoc2]
    by_cases hsz : sz d i = c.st_size
    · rw [hsz, alookup_dictSet_self] at ha
      cases ha
    · rw [alookup_dictSet_ne hsz] at ha
      have hne1 : (d, i) ≠ (c.st_dev, c.st_ino) := by
        intro he
        have he1 : d = c.st_dev := congrArg Prod.fst he
        have he2 : i = c.st_ino := congrArg Prod.snd he
        rw [he1, he2, ← hc] at hsz
        exact hsz rfl
      have hne2 : (d, i) ≠ (e.dev, e.inode) := by
        intro he
        have he1 : d = e.dev := congrArg Prod.fst he
        have he2 : i = e.inode := congrArg Prod.snd he
        rw [he1, he2, hsze] at hsz
        exact hsz rfl
      have h0 : st.hashed.count (d, i) = 0 := h.absent d i ha
      rw [if_neg hne1, if_neg hne2, h0]
  · intro d i hs
    show (st.hashed ++ [(c.st_dev, c.st_ino), (e.dev, e.inode)]).count (d, i) ≤
      (List.filter (fun t2 => t2.2.1.dev == d && t2.2.1.inode == i)
        (st.emitted ++ [(e, mkInfo c, th)])).length
    rw [count_pair_snoc2, countDup_snoc]
    by_cases hdi : (d, i) = (c.st_dev, c.st_ino)
    · have he1 : d = c.st_dev := congrArg Prod.fst hdi
      have he2 : i = c.st_ino := congrArg Prod.snd hdi
      rw [if_pos hdi, if_neg (hdi ▸ hen.symm ∘ Eq.symm ∘ Eq.symm), if_pos
        (show (mkInfo c).dev = d ∧ (mkInfo c).inode = i from ⟨he1.symm, he2.symm⟩)]
      subst he1
      subst he2
      have hB1 : st.hashed.count (c.st_dev, c.st_ino) ≤
          (List.filter (fun t2 => t2.2.1.dev == c.st_dev && t2.2.1.inode == c.st_ino)
            st.emitted).length :=
        h.bound1 c.st_dev c.st_ino hsf
      omega
    · by_cases hde : (d, i) = (e.dev, e.inode)
      · exfalso
        have hT : stored { st with
            processed := st.processed ++ [c],
            hashed := st.hashed ++ [(c.st_dev, c.st_ino), (e.dev, e.inode)],
            buckets := dictSet st.buckets c.st_size (BucketVal.dict [(eh, e)]),
            emitted := st.emitted ++ [(e, mkInfo c, th)] } d i = true := by
          refine stored_true_iff.mpr ⟨(c.st_size, BucketVal.dict [(eh, e)]),
            dictSet_self_mem _ _ _, e, by simp [storedInfos],
            (congrArg Prod.fst hde).symm, (congrArg Prod.snd hde).symm⟩
        rw [hs] at hT
        cases hT
      · have hs2 : stored st d i = false := by
          cases hx : stored st d i
          · rfl
          · exfalso
            have hx2 : (st.buckets.any fun p => storedIn p.2 d i) = true := hx
            have hA := stored_buckets_mono st.buckets c.st_size (BucketVal.info e)
              (BucketVal.dict [(eh, e)]) h.nodup hb hsub d i hx2
            have hs3 : ((dictSet st.buckets c.st_size
                (BucketVal.dict [(eh, e)])).any fun p => storedIn p.2 d i) = false := hs
            rw [hA] at hs3
            cases hs3
        rw [if_neg hdi, if_neg hde, if_neg (show ¬((mkInfo c).dev = d ∧ (mkInfo c).inode = i)
          from by
            rintro ⟨x1, x2⟩
            refine hdi ?_
            have y1 : c.st_dev = d := x1
            have y2 : c.st_ino = i := x2
            rw [y1, y2])]
        have hB1 : st.hashed.count (d, i) ≤
            (List.filter (fun t2 => t2.2.1.dev == d && t2.2.1.inode == i) st.emitted).length :=
          h.bound1 d i hs2
        omega
  · intro d i
    show (st.hashed ++ [(c.st_dev, c.st_ino), (e.dev, e.inode)]).count (d, i) ≤
      (List.filter (fun t2 => t2.2.1.dev == d && t2.2.1.inode == i)
        (st.emitted ++ [(e, mkInfo c, th)])).length + 1
    rw [count_pair_snoc2, countDup_snoc]
    by_cases hdi : (d, i) = (c.st_dev, c.st_ino)
    · have he1 : d = c.st_dev := congrArg Prod.fst hdi
      have he2 : i = c.st_ino := congrArg Prod.snd hdi
      rw [if_pos hdi, if_neg (show ¬(d, i) = (e.dev, e.inode) from by
          rw [hdi]
          exact fun hx => hen hx.symm), if_pos
        (show (mkInfo c).dev = d ∧ (mkInfo c).inode = i from ⟨he1.symm, he2.symm⟩)]
      subst he1
      subst he2
      have hB1 : st.hashed.count (c.st_dev, c.st_ino) ≤
          (List.filter (fun t2 => t2.2.1.dev == c.st_dev && t2.2.1.inode == c.st_ino)
            st.emitted).length :=
        h.bound1 c.st_dev c.st_ino hsf
      omega
    · by_cases hde : (d, i) = (e.dev, e.inode)
      · have he1 : d = e.dev := congrArg Prod.fst hde
        have he2 : i = e.inode := congrArg Prod.snd hde
        rw [if_neg hdi, if_pos hde, if_neg (show ¬((mkInfo c).dev = d ∧ (mkInfo c).inode = i)
          from by
            rintro ⟨x1, x2⟩
            refine hdi ?_
            have y1 : c.st_dev = d := x1
            have y2 : c.st_ino = i := x2
            rw [y1, y2])]
        subst he1
        subst he2
        omega
      · rw [if_neg hdi, if_neg hde, if_neg (show ¬((mkInfo c).dev = d ∧ (mkInfo c).inode = i)
          from by
            rintro ⟨x1, x2⟩
            refine hdi ?_
            have y1 : c.st_dev = d := x1
            have y2 : c.st_ino = i := x2
            rw [y1, y2])]
        have hB2 : st.hashed.count (d, i) ≤
            (List.filter (fun t2 => t2.2.1.dev == d && t2.2.1.inode == i)
              st.emitted).length + 1 :=
          h.bound2 d i
        omega

/-- First size collision with distinct digests: hashing both files once
and storing both under their digests preserves the hash-count
invariant. -/
theorem InvC4_infoins (sz : Nat → Nat → Nat) (st : DetectState) (c : Candidate)
    (e : FileInfo) (th eh : Nat)
    (hc : c.st_size = sz c.st_dev c.st_ino)
    (hb : alookup c.st_size st.buckets = some (BucketVal.info e))
    (hie : e.inode ≠ c.st_ino)
    (h : InvC4 sz st) :
    InvC4 sz { st with
               processed := st.processed ++ [c],
               hashed := st.hashed ++ [(c.st_dev, c.st_ino), (e.dev, e.inode)],
               buckets := dictSet st.buckets c.st_size
                 (BucketVal.dict [(eh, e), (th, mkInfo c)]) } := by
  have pmem : (c.st_size, BucketVal.info e) ∈ st.buckets := alookup_some_mem hb
  have hsze : sz e.dev e.inode = c.st_size :=
    h.sizes (c.st_size, BucketVal.info e) pmem e (by simp [storedInfos])
  have hfre : st.hashed.count (e.dev, e.inode) = 0 :=
    h.fresh (c.st_size, BucketVal.info e) pmem e rfl
  have hsf : stored st c.st_dev c.st_ino = false :=
    stored_false_of_info sz st c e h.nodup h.sizes hc hb hie
  have hsub : ∀ f ∈ storedInfos (BucketVal.info e),
      f ∈ storedInfos (BucketVal.dict [(eh, e), (th, mkInfo c)]) := by
    intro f hfm
    simp [storedInfos] at hfm ⊢
    exact Or.inl hfm
  refine ⟨dictSet_nodup h.nodup, ?_, ?_, ?_, ?_, ?_⟩
  · intro p hp f hf
    rcases mem_dictSet h.nodup hp with h4 | ⟨h4, h5⟩
    · subst h4
      have hfe : f = e ∨ f = mkInfo c := by simpa [storedInfos] using hf
      rcases hfe with hfe | hfe
      · rw [hfe]
        exact hsze
      · rw [hfe]
        exact hc.symm
    · exact h.sizes p h4 f hf
  · intro p hp e2 hpe
    show (st.hashed ++ [(c.st_dev, c.st_ino), (e.dev, e.inode)]).count (e2.dev, e2.inode) = 0
    rw [count_pair_snoc2]
    rcases mem_dictSet h.nodup hp with h4 | ⟨h4, h5⟩
    · subst h4
      cases hpe
    · have hsz2 : sz e2.dev e2.inode = p.1 :=
        h.sizes p h4 e2 (by rw [hpe]; simp [storedInfos])
      have hne1 : (e2.dev, e2.inode) ≠ (c.st_dev, c.st_ino) := by
        intro he
        have he1 : e2.dev = c.st_dev := congrArg Prod.fst he
        have he2 : e2.inode = c.st_ino := congrArg Prod.snd he
        rw [he1, he2, ← hc] at hsz2
        exact h5 hsz2.symm
      have hne2 : (e2.dev, e2.inode) ≠ (e.dev, e.inode) := by
        intro he
        have he1 : e2.dev = e.dev := congrArg Prod.fst he
        have he2 : e2.inode = e.inode := congrArg Prod.snd he
        rw [he1, he2, hsze] at hsz2
        exact h5 hsz2.symm
      have h0 : st.hashed.count (e2.dev, e2.inode) = 0 := h.fresh p h4 e2 hpe
      rw [if_neg hne1, if_neg hne2, h0]
  · intro d i ha
    show (st.hashed ++ [(c.st_dev, c.st_ino), (e.dev, e.inode)]).count (d, i) = 0
    rw [count_pair_snoc2]
    by_cases hsz : sz d i = c.st_size
    · rw [hsz, alookup_dictSet_self] at ha
      cases ha
    · rw [alookup_dictSet_ne hsz] at ha
      have hne1 : (d, i) ≠ (c.st_dev, c.st_ino) := by
        intro he
        have he1 : d = c.st_dev := congrArg Prod.fst he
        have he2 : i = c.st_ino := congrArg Prod.snd he
        rw [he1, he2, ← hc] at hsz
        exact hsz rfl
      have hne2 : (d, i) ≠ (e.dev, e.inode) := by
        intro he
        have he1 : d = e.dev := congrArg Prod.fst he
        have he2 : i = e.inode := congrArg Prod.snd he
        rw [he1, he2, hsze] at hsz
        exact hsz rfl
      have h0 : st.hashed.count (d, i) = 0 := h.absent d i ha
      rw [if_neg hne1, if_neg hne2, h0]
  · intro d i hs
    by_cases hdi : (d, i) = (c.st_dev, c.st_ino)
    · exfalso
      have hT : stored { st with
          processed := st.processed ++ [c],
          hashed := st.hashed ++ [(c.st_dev, c.st_ino), (e.dev, e.inode)],
          buckets := dictSet st.buckets c.st_size
            (BucketVal.dict [(eh, e), (th, mkInfo c)]) } d i = true := by
        refine stored_true_iff.mpr ⟨(c.st_size, BucketVal.dict [(eh, e), (th, mkInfo c)]),
          dictSet_self_mem _ _ _, mkInfo c, by simp [storedInfos],
          (congrArg Prod.fst hdi).symm, (congrArg Prod.snd hdi).symm⟩
      rw [hs] at hT
      cases hT
    · by_cases hde : (d, i) = (e.dev, e.inode)
      · exfalso
        have hT : stored { st with
            processed := st.processed ++ [c],
            hashed := st.hashed ++ [(c.st_dev, c.st_ino), (e.dev, e.inode)],
            buckets := dictSet st.buckets c.st_size
              (BucketVal.dict [(eh, e), (th, mkInfo c)]) } d i = true := by
          refine stored_true_iff.mpr ⟨(c.st_size, BucketVal.dict [(eh, e), (th, mkInfo c)]),
            dictSet_self_mem _ _ _, e, by simp [storedInfos],
            (congrArg Prod.fst hde).symm, (congrArg Prod.snd hde).symm⟩
        rw [hs] at hT
        cases hT
      · have hs2 : stored st d i = false := by
          cases hx : stored st d i
          · rfl
          · exfalso
            have hx2 : (st.buckets.any fun p => storedIn p.2 d i) = true := hx
            have hA := stored_buckets_mono st.buckets c.st_size (BucketVal.info e)
              (BucketVal.dict [(eh, e), (th, mkInfo c)]) h.nodup hb hsub d i hx2
            have hs3 : ((dictSet st.buckets c.st_size
                (BucketVal.dict [(eh, e), (th, mkInfo c)])).any
                fun p => storedIn p.2 d i) = false := hs
            rw [hA] at hs3
            cases hs3
        show (st.hashed ++ [(c.st_dev, c.st_ino), (e.dev, e.inode)]).count (d, i) ≤
          (List.filter (fun t2 => t2.2.1.dev == d && t2.2.1.inode == i) st.emitted).length
        rw [count_pair_snoc2, if_neg hdi, if_neg hde]
        have hB1 : st.hashed.count (d, i) ≤
            (List.filter (fun t2 => t2.2.1.dev == d && t2.2.1.inode == i) st.emitted).length :=
          h.bound1 d i hs2
        omega
  · intro d i
    show (st.hashed ++ [(c.st_dev, c.st_ino), (e.dev, e.inode)]).count (d, i) ≤
      (List.filter (fun t2 => t2.2.1.dev == d && t2.2.1.inode == i) st.emitted).length + 1
    rw [count_pair_snoc2]
    by_cases hdi : (d, i) = (c.st_dev, c.st_ino)
    · have he1 : d = c.st_dev := congrArg Prod.fst hdi
      have he2 : i = c.st_ino := congrArg Prod.snd hdi
      rw [if_pos hdi, if_neg (show ¬(d, i) = (e.dev, e.inode) from by
          rw [hdi]
          exact fun hx => hie (congrArg Prod.snd hx.symm))]
      subst he1
      subst he2
      have hB1 : st.hashed.count (c.st_dev, c.st_ino) ≤
          (List.filter (fun t2 => t2.2.1.dev == c.st_dev && t2.2.1.inode == c.st_ino)
            st.emitted).length :=
        h.bound1 c.st_dev c.st_ino hsf
      omega
    · by_cases hde : (d, i) = (e.dev, e.inode)
      · have he1 : d = e.dev := congrArg Prod.fst hde
        have he2 : i = e.inode := congrArg Prod.snd hde
        rw [if_neg hdi, if_pos hde]
        subst he1
        subst he2
        omega
      · rw [if_neg hdi, if_neg hde]
        have hB2 : st.hashed.count (d, i) ≤
            (List.filter (fun t2 => t2.2.1.dev == d && t2.2.1.inode == i)
              st.emitted).length + 1 :=
          h.bound2 d i
        omega

/-- Any successful candidate step preserves the hash-count invariant. -/
theorem InvC4_step (opts : Options) (hashFn : String → Option Nat) (sz : Nat → Nat → Nat)
    (st : DetectState) (c : Candidate)
    (hc : c.st_size = sz c.st_dev c.st_ino)
    (h : InvC4 sz st) :
    ∀ st2, find_dupes_step opts hashFn st c = .ok st2 → InvC4 sz st2 := by
  refine find_dupes_step_cases opts hashFn st c
    (fun r => ∀ st2, r = .ok st2 → InvC4 sz st2) ?_ ?_ ?_ ?_ ?_ ?_ ?_ ?_ ?_ ?_ ?_ ?_
  · intro _ st2 hr
    injection hr with hr
    exact hr ▸ InvC4_keep sz st _ rfl rfl rfl h
  · intro _ _ st2 hr
    injection hr with hr
    exact hr ▸ InvC4_keep sz st _ rfl rfl rfl h
  · intro _ _ hb st2 hr
    injection hr with hr
    exact hr ▸ InvC4_new sz st c hc hb h
  · intro m _ _ hb hany st2 hr
    injection hr with hr
    exact hr ▸ InvC4_keep sz st _ rfl rfl rfl h
  · intro m _ _ hb hany hh st2 hr
    cases hr
  · intro m th orig _ _ hb hany hh ho st2 hr
    injection hr with hr
    exact hr ▸ InvC4_dictemit sz st c m th orig hc hb hany ho h
  · intro m th _ _ hb hany hh ho st2 hr
    injection hr with hr
    exact hr ▸ InvC4_dictins sz st c m th hc hb hany h
  · intro e _ _ hb hie st2 hr
    injection hr with hr
    exact hr ▸ InvC4_keep sz st _ rfl rfl rfl h
  · intro e _ _ hb hie hh st2 hr
    cases hr
  · intro e th _ _ hb hie hh he2 st2 hr
    cases hr
  · intro e th eh _ _ hb hie hh he2 heq st2 hr
    injection hr with hr
    exact hr ▸ InvC4_infoemit sz st c e th eh hc hb hie h
  · intro e th eh _ _ hb hie hh he2 heq st2 hr
    injection hr with hr
    exact hr ▸ InvC4_infoins sz st c e th eh hc hb hie h

/-- C4 amended: over any non-aborted pass whose stat data is consistent
(candidates with the same `(device, inode)` always report the same
size, `sz`), each `(device, inode)` is hashed at most once more than
the number of emitted triples naming it as the duplicate; in
particular, a `(device, inode)` never emitted as a duplicate is hashed
at most once. -/
theorem C4_hash_count_bound (opts : Options) (hashFn : String → Option Nat)
    (sz : Nat → Nat → Nat) (cs : List Candidate) (st2 : DetectState)
    (hcons : ∀ c ∈ cs, c.st_size = sz c.st_dev c.st_ino)
    (hrun : find_dupes opts hashFn initState cs = (st2, false)) :
    ∀ d i, countHash st2 d i ≤ countDupEmit st2 d i + 1 := by
  have hinv : InvC4 sz st2 := by
    refine find_dupes_inv_ok opts hashFn (InvC4 sz)
      (fun c => c.st_size = sz c.st_dev c.st_ino) ?_ cs initState st2 hcons ?_ hrun
    · intro sta c stb hQ hstep hP
      exact InvC4_step opts hashFn sz sta c hQ hP stb hstep
    · refine ⟨?_, ?_, ?_, ?_, ?_, ?_⟩
      · simp [initState]
      · intro p hp
        simp [initState] at hp
      · intro p hp
        simp [initState] at hp
      · intro d i _
        rfl
      · intro d i _
        exact Nat.zero_le _
      · intro d i
        exact Nat.zero_le _
  exact hinv.bound2

/-- Witness for the amended hash-count bound at the double-hash
scenario: inode 3 is hashed twice and emitted twice, within the bound. -/
theorem C4_hash_count_bound_witness :
    countHash (find_dupes defaultOptions hashAll7 initState [c4p1, c4p2, c4p3]).1 1 3 ≤
      countDupEmit (find_dupes defaultOptions hashAll7 initState [c4p1, c4p2, c4p3]).1 1 3 + 1 :=
  C4_hash_count_bound defaultOptions hashAll7 (fun _ _ => 5) [c4p1, c4p2, c4p3]
    (find_dupes defaultOptions hashAll7 initState [c4p1, c4p2, c4p3]).1
    (by decide) rfl 1 3
